import Mathlib

/-
Verification of the miniredis stream engine (src/cmd_stream.go) against its
natural-language specification.

The command layer (XADD, XRANGE/XREVRANGE, XREADGROUP, XACK, XPENDING and the
reply writers) is translated from src/cmd_stream.go.  The stream data
structure and its helpers (streamCmp, parseStreamID, formatStreamRangeBound,
add, trim, delete, readGroup, ack, pendingCount, the database key registry)
are repository code that is not under src/; those definitions are modelled
from the spec, as marked in their doc comments.

Machine integers (uint64 stream-ID parts, Go int) are modelled as Nat / Int
with explicit bounds checks where the Go standard library enforces them.
Go strings are Lean Strings; the handful of Go standard-library string
helpers used by the code (strings.ToLower/ToUpper, strconv.Atoi,
sort.Strings) are given executable models over the character list of the
string so that every definition evaluates by kernel reduction.
-/

set_option maxHeartbeats 1000000

namespace Miniredis

/-! ### Go standard-library helpers, modelled executably -/

/-- Modelled from the spec: strings.ToLower restricted to ASCII, which is all
the command layer compares against ("maxlen"). -/
def lowerStr (s : String) : String := String.mk (s.data.map Char.toLower)

/-- Modelled from the spec: strings.ToUpper restricted to ASCII ("GROUP",
"COUNT", "BLOCK", "NOACK", "STREAMS"). -/
def upperStr (s : String) : String := String.mk (s.data.map Char.toUpper)

/-- Decimal digit-string value: `some n` when the characters are nonempty and
all decimal digits. -/
def digitsVal : List Char → Option Nat
  | [] => none
  | [c] => if c.isDigit then some (c.toNat - 48) else none
  | c :: cs =>
    if c.isDigit then
      match digitsVal cs with
      | some n => some ((c.toNat - 48) * 10 ^ cs.length + n)
      | none => none
    else none

/-- Largest uint64 value, the bound Go's strconv.ParseUint(…, 10, 64) enforces. -/
def uint64Max : Nat := 2 ^ 64 - 1

/-- Largest int64 value, the bound Go's strconv.Atoi enforces on 64-bit. -/
def int64Max : Nat := 2 ^ 63 - 1

/-- Modelled from the spec: Go strconv.ParseUint(s, 10, 64) — digits only, no
sign, value must fit in uint64. -/
def parseUint64 (s : String) : Option Nat :=
  match digitsVal s.data with
  | none => none
  | some n => if n ≤ uint64Max then some n else none

/-- Modelled from the spec: Go strconv.Atoi — optional sign, digits, value
must fit in int64. -/
def atoi (s : String) : Option Int :=
  match s.data with
  | '-' :: cs =>
    match digitsVal cs with
    | none => none
    | some n => if n ≤ int64Max + 1 then some (-(n : Int)) else none
  | '+' :: cs =>
    match digitsVal cs with
    | none => none
    | some n => if n ≤ int64Max then some ((n : Int)) else none
  | cs =>
    match digitsVal cs with
    | none => none
    | some n => if n ≤ int64Max then some ((n : Int)) else none

/-- Split a character list at each '-', like Go strings.Split(s, "-"). -/
def splitDashAux : List Char → List Char → List (List Char)
  | [], acc => [acc.reverse]
  | c :: cs, acc =>
    if c = '-' then acc.reverse :: splitDashAux cs [] else splitDashAux cs (c :: acc)

/-- Byte-wise ≤ on ASCII strings, matching Go's string ordering used by
sort.Strings. -/
def strLeAux : List Char → List Char → Bool
  | [], _ => true
  | _ :: _, [] => false
  | a :: as, b :: bs => if a = b then strLeAux as bs else decide (a.toNat ≤ b.toNat)

/-- Modelled from the spec: the string order of Go's sort.Strings. -/
def strLe (a b : String) : Bool := strLeAux a.data b.data

/-- Modelled from the spec: Go's sort.Strings (the output is sorted in the
`strLe` order and is a permutation of the input, which is all the code relies
on); realized as an insertion sort. -/
def sortStrings (l : List String) : List String :=
  List.insertionSort (fun a b => strLe a b = true) l

/-! ### Entry-ID ordering (spec §4.1; the Go helpers are not under src/) -/

/-- A stream entry ID: a pair (millis, seq) of uint64s, textually
"millis-seq" (spec §3). -/
structure StreamID where
  millis : Nat
  seq : Nat
deriving DecidableEq

/-- Modelled from the spec: streamCmp — three-way comparison of stream IDs,
lexicographic on (millis, seq), returning -1, 0 or 1. -/
def streamCmp (a b : StreamID) : Int :=
  if a.millis < b.millis then -1
  else if b.millis < a.millis then 1
  else if a.seq < b.seq then -1
  else if b.seq < a.seq then 1
  else 0

/-- Strict ID order, as decided by `streamCmp`. -/
def idLt (a b : StreamID) : Prop := streamCmp a b = -1

/-- Reflexive ID order, as decided by `streamCmp`. -/
def idLe (a b : StreamID) : Prop := streamCmp a b ≤ 0

instance (a b : StreamID) : Decidable (idLt a b) :=
  inferInstanceAs (Decidable (streamCmp a b = -1))

instance (a b : StreamID) : Decidable (idLe a b) :=
  inferInstanceAs (Decidable (streamCmp a b ≤ 0))

/-- The textual "millis-seq" form of an ID, used in replies. -/
def streamIDString (i : StreamID) : String :=
  toString i.millis ++ "-" ++ toString i.seq

/-- Modelled from the spec: parseStreamID — accepts "millis-seq" and bare
"millis" (sequence defaulting to 0), failing on malformed numeric parts.
Special tokens ("-", "+", "*", ">") are not concrete IDs and fail here. -/
def parseStreamID (s : String) : Option StreamID :=
  match splitDashAux s.data [] with
  | [m] =>
    match parseUint64 (String.mk m) with
    | some ms => some ⟨ms, 0⟩
    | none => none
  | [m, q] =>
    match parseUint64 (String.mk m), parseUint64 (String.mk q) with
    | some ms, some sq => some ⟨ms, sq⟩
    | _, _ => none
  | _ => none

/-- Modelled from the spec: formatStreamRangeBound — normalizes a range
endpoint: "-" is the minimum ID, "+" the maximum; a bare "millis" gets
sequence 0 when it acts as the scan's start and max-uint64 when it acts as
the end, with the roles swapped for a reverse scan (spec §4.1). -/
def formatStreamRangeBound (s : String) (start reverse : Bool) : Option StreamID :=
  if s = "-" then some ⟨0, 0⟩
  else if s = "+" then some ⟨uint64Max, uint64Max⟩
  else
    match splitDashAux s.data [] with
    | [m] =>
      match parseUint64 (String.mk m) with
      | some ms =>
        if (start && !reverse) || (!start && reverse) then some ⟨ms, 0⟩
        else some ⟨ms, uint64Max⟩
      | none => none
    | _ => parseStreamID s

/-! ### Reply error literals (src/cmd_stream.go and the shared message table) -/

def msgInvalidInt : String := "ERR value is not an integer or out of range"

def msgInvalidStreamID : String :=
  "ERR Invalid stream ID specified as stream command argument"

/-- The literal negative-MAXLEN error written at src/cmd_stream.go line 62. -/
def msgMaxlenNegative : String := "ERR The MAXLEN argument must be >= 0."

/-- The distinct wrong-arity message for XADD (src/cmd_stream.go line 76). -/
def msgXaddWrongNumber : String := "ERR wrong number of arguments for XADD"

def msgSyntaxError : String := "ERR syntax error"

def msgWrongType : String :=
  "WRONGTYPE Operation against a key holding the wrong kind of value"

def msgXreadUnbalanced : String :=
  "ERR Unbalanced XREAD list of streams: for each stream key an ID or '$' must be specified."

def msgTimeoutNegative : String := "ERR timeout is negative"

/-- Modelled from the spec: the generic wrong-arity message, parameterized by
the (lower-cased) command name. -/
def errWrongNumber (cmd : String) : String :=
  "ERR wrong number of arguments for '" ++ lowerStr cmd ++ "' command"

/-- Modelled from the spec: the group-not-found error of XREADGROUP,
parameterized by key and group name. -/
def errXreadgroup (key group : String) : String :=
  "NOGROUP No such consumer group '" ++ group ++ "' for key name '" ++ key ++ "'"

/-- Modelled from the spec: the error text Go's strconv.Atoi produces when the
COUNT argument of XREADGROUP/XREAD is not a number (the code surfaces the Go
error verbatim; its exact text is not load-bearing for any claim). -/
def msgAtoiError (s : String) : String := "strconv.Atoi: parsing " ++ s ++ ": invalid syntax"

/-! ### Data model (spec §3) -/

/-- A stream entry: an ID plus the flattened field/value string pairs in
insertion order (spec §3). -/
structure StreamEntry where
  id : StreamID
  values : List String
deriving DecidableEq

/-- A pending row of a consumer group: delivered-but-unacknowledged entry
(spec §3). `lastDelivery` is milliseconds of virtual-clock time. -/
structure pendingEntry where
  id : StreamID
  consumer : String
  lastDelivery : Nat
  deliveryCount : Nat
deriving DecidableEq

/-- A consumer group: read cursor, ID-sorted pending table, and the set of
consumer names seen so far (spec §3; the Go struct is not under src/).
`consumers` models the keys of the Go map of known consumers. -/
structure streamGroup where
  lastDelivered : StreamID
  pending : List pendingEntry
  consumers : List String
deriving DecidableEq

/-- A stream key: the ID-sorted entry log, the named consumer groups, and the
last allocated ID.  Modelled from the spec: every appended ID must exceed the
previous maximum appended ID "not merely the greatest currently-present ID,
since trimming/deletion must not allow ID reuse" (spec §3), so the maximum is
tracked independently of `entries`. -/
structure streamKey where
  entries : List StreamEntry
  groups : List (String × streamGroup)
  lastID : StreamID
deriving DecidableEq

/-- The stream key a fresh XADD / XGROUP-MKSTREAM creates. -/
def emptyStreamKey : streamKey := ⟨[], [], ⟨0, 0⟩⟩

/-- The add error of the stream log; src/cmd_stream.go line 100 switches on
exactly this value (errInvalidEntryID). -/
inductive AddErr
  | invalidEntryID
deriving DecidableEq

/-- Modelled from the spec (§4.2 append): with the wildcard token the new ID
is (max(now, last.millis), 0) when the millis part grows and
(last.millis, last.seq+1) otherwise; an explicit ID must parse and compare
strictly greater than the stream's last allocated ID, else the append fails
with the invalid-entry-ID error.  On success the entry is appended and the
last allocated ID advances. -/
def streamKey.add (s : streamKey) (entryID : String) (values : List String)
    (now : Nat) : Except AddErr (StreamID × streamKey) :=
  if entryID = "*" then
    let ms := max now s.lastID.millis
    let newID : StreamID :=
      if s.lastID.millis < ms then ⟨ms, 0⟩ else ⟨ms, s.lastID.seq + 1⟩
    .ok (newID, { s with entries := s.entries ++ [⟨newID, values⟩], lastID := newID })
  else
    match parseStreamID entryID with
    | none => .error .invalidEntryID
    | some nid =>
      if streamCmp nid s.lastID = 1 then
        .ok (nid, { s with entries := s.entries ++ [⟨nid, values⟩], lastID := nid })
      else .error .invalidEntryID

/-- Modelled from the spec (§4.2 trim): retain only the most recent `maxLen`
entries (the highest IDs), dropping the oldest first; a no-op when the stream
is already within the bound. -/
def streamKey.trim (s : streamKey) (maxLen : Nat) : streamKey :=
  { s with entries := s.entries.drop (s.entries.length - maxLen) }

/-- Modelled from the spec (§4.2 delete): remove the entries whose ID exactly
matches one of the given textual IDs, returning how many were removed;
non-matching IDs are ignored, malformed IDs are an error.  The last allocated
ID is untouched, so deletion cannot re-open ID reuse. -/
def streamKey.delete (s : streamKey) (ids : List String) :
    Except String (Nat × streamKey) :=
  match ids.mapM parseStreamID with
  | none => .error msgInvalidStreamID
  | some parsed =>
    let kept := s.entries.filter (fun e => !(parsed.contains e.id))
    .ok (s.entries.length - kept.length, { s with entries := kept })

/-- Counts of a consumer's pending rows.  Modelled from the spec (§4.3
pendingCount): the number of Pending rows currently owned by that consumer. -/
def streamGroup.pendingCount (g : streamGroup) (consumer : String) : Nat :=
  (g.pending.filter (fun p => p.consumer == consumer)).length

/-- Modelled from the spec (§4.3 readGroup).  With the ">" token: deliver the
owning stream's entries with ID strictly above the cursor, up to `count`
(non-positive count = unbounded), advance the cursor to the last delivered
entry, and unless `noAck` create one pending row per delivered entry with
this delivery time and a delivery count of 1.  With a concrete ID: replay the
calling consumer's own pending entries with greater ID, read-only.  In both
cases the consumer name is registered.  The owning stream's entry log is
passed explicitly (in Go the group holds a pointer to its stream). -/
def streamGroup.readGroup (g : streamGroup) (entries : List StreamEntry)
    (now : Nat) (consumer id : String) (count : Int) (noAck : Bool) :
    List StreamEntry × streamGroup :=
  let g := if g.consumers.contains consumer then g
           else { g with consumers := g.consumers ++ [consumer] }
  if id = ">" then
    let sel := entries.filter (fun e => streamCmp e.id g.lastDelivered = 1)
    let sel := if 0 < count then sel.take count.toNat else sel
    match sel.getLast? with
    | none => (sel, g)
    | some lastE =>
      let g := { g with lastDelivered := lastE.id }
      if noAck then (sel, g)
      else
        (sel, { g with
          pending := g.pending ++ sel.map (fun e => ⟨e.id, consumer, now, 1⟩) })
  else
    let gid := (parseStreamID id).getD ⟨0, 0⟩
    let mine := g.pending.filter
      (fun p => p.consumer == consumer && streamCmp p.id gid = 1)
    (entries.filter (fun e => mine.any (fun p => p.id == e.id)), g)

/-- Modelled from the spec (§4.3 ack): remove the pending rows whose ID is in
the given textual list, regardless of owning consumer; IDs not pending are
ignored; malformed IDs are an error.  Returns the number removed. -/
def streamGroup.ack (g : streamGroup) (ids : List String) :
    Except String (Nat × streamGroup) :=
  match ids.mapM parseStreamID with
  | none => .error msgInvalidStreamID
  | some parsed =>
    let kept := g.pending.filter (fun p => !(parsed.contains p.id))
    .ok (g.pending.length - kept.length, { g with pending := kept })

/-! ### Database facade (external collaborator, spec §1/§6), modelled -/

/-- Modelled from the spec: the per-database key registry.  A key holds either
a stream (`streamKeys`) or a value of another type (`otherKeys` maps it to
its type tag), plus the per-key version counter bumped on mutation. -/
structure RedisDB where
  otherKeys : String → Option String
  streamKeys : String → Option streamKey
  keyVersion : String → Nat

/-- The empty database. -/
def emptyDB : RedisDB := ⟨fun _ => none, fun _ => none, fun _ => 0⟩

/-- The derived type tag of a key, as db.t / db.keys report it. -/
def RedisDB.keyType (db : RedisDB) (key : String) : Option String :=
  match db.otherKeys key with
  | some t => some t
  | none => (db.streamKeys key).map (fun _ => "stream")

/-- Modelled from the spec: db.stream — the stream at a key: an error when the
key holds another type, `none` when the key is absent. -/
def RedisDB.stream (db : RedisDB) (key : String) :
    Except String (Option streamKey) :=
  match db.otherKeys key with
  | some _ => .error msgWrongType
  | none => .ok (db.streamKeys key)

/-- Store a stream under a key. -/
def RedisDB.setStream (db : RedisDB) (key : String) (s : streamKey) : RedisDB :=
  { db with streamKeys := fun k => if k = key then some s else db.streamKeys k }

/-- Modelled from the spec: db.newStream — register a fresh empty stream under
the key (called by XADD only when the key is absent). -/
def RedisDB.newStream (db : RedisDB) (key : String) : streamKey × RedisDB :=
  (emptyStreamKey, db.setStream key emptyStreamKey)

/-- db.keyVersion[key]++ — the external mutation signal. -/
def RedisDB.bumpVersion (db : RedisDB) (key : String) : RedisDB :=
  { db with keyVersion := fun k => if k = key then db.keyVersion k + 1 else db.keyVersion k }

/-- Replace the value under a key of an association list, appending when the
key is absent (the contents of a Go map, iterated elsewhere by explicit key
lists, so the representation order is immaterial). -/
def assocSet {α : Type} (l : List (String × α)) (key : String) (v : α) :
    List (String × α) :=
  if l.any (fun p => p.1 == key) then
    l.map (fun p => if p.1 == key then (key, v) else p)
  else l ++ [(key, v)]

/-- Modelled from the spec: db.streamGroup — the named group of the stream at
a key: a wrong-type error when the key holds another type, `none` when the
key or the group is absent. -/
def RedisDB.streamGroup (db : RedisDB) (key group : String) :
    Except String (Option streamGroup) :=
  match db.stream key with
  | .error m => .error m
  | .ok none => .ok none
  | .ok (some s) => .ok (s.groups.lookup group)

/-- Store a group back into its stream (in Go the group is mutated through a
pointer held by the stream). -/
def RedisDB.setGroup (db : RedisDB) (key group : String) (g : Miniredis.streamGroup) : RedisDB :=
  match db.streamKeys key with
  | none => db
  | some s => db.setStream key { s with groups := assocSet s.groups group g }

/-- The entry log of the stream at a key (empty when absent); the log a
group-scoped read delivers from. -/
def RedisDB.entriesOf (db : RedisDB) (key : String) : List StreamEntry :=
  match db.streamKeys key with
  | none => []
  | some s => s.entries

/-! ### XADD (src/cmd_stream.go lines 32-114) -/

/-- The MAXLEN prefix parsing of cmdXadd (src lines 49-67): when the first
argument lower-cases to "maxlen", an optional "~" is skipped, the next
argument must be a non-negative integer, and -1 is the no-trim sentinel
otherwise.  The empty-list fallbacks are unreachable under the arity guard
(in Go they would be an index panic). -/
def parseMaxlen (args : List String) : Except String (Int × List String) :=
  match args with
  | [] => .ok (-1, [])
  | a0 :: r1 =>
    if lowerStr a0 = "maxlen" then
      let r2 := if r1.head? = some "~" then r1.tail else r1
      match r2 with
      | [] => .error msgInvalidInt
      | v :: r3 =>
        match atoi v with
        | none => .error msgInvalidInt
        | some n =>
          if n < 0 then .error msgMaxlenNegative
          else .ok (n, r3)
    else .ok (-1, args)

/-- The database portion of cmdXadd (src lines 86-112): fetch (or create) the
stream, append, then — only after a successful append — trim when MAXLEN was
given, bump the key version and reply with the new ID.  Note that the stream
key created for an absent key persists even when the append then fails. -/
def xaddCore (db : RedisDB) (now : Nat) (key : String) (maxlen : Int)
    (entryID : String) (values : List String) : Except String String × RedisDB :=
  match db.stream key with
  | .error m => (.error m, db)
  | .ok sOpt =>
    let p := match sOpt with
      | some s => (s, db)
      | none => db.newStream key
    match p.1.add entryID values now with
    | .error .invalidEntryID => (.error msgInvalidStreamID, p.2)
    | .ok (newID, s1) =>
      let s2 := if 0 ≤ maxlen then s1.trim maxlen.toNat else s1
      let db2 := (p.2.setStream key s2).bumpVersion key
      (.ok (streamIDString newID), db2)

/-- cmdXadd (src lines 32-114), minus the external auth/pubsub/transaction
wrappers: arity guard, MAXLEN parsing, entry-ID extraction, field/value
pairing check, then the database step. -/
def cmdXadd (db : RedisDB) (now : Nat) (cmd : String) (args : List String) :
    Except String String × RedisDB :=
  if args.length < 4 then (.error (errWrongNumber cmd), db)
  else
    match args with
    | [] => (.error (errWrongNumber cmd), db)
    | key :: rest =>
      match parseMaxlen rest with
      | .error m => (.error m, db)
      | .ok (maxlen, rest1) =>
        match rest1 with
        | [] => (.error (errWrongNumber cmd), db)
        | entryID :: rest2 =>
          if rest2.length = 0 || rest2.length % 2 != 0 then
            (.error msgXaddWrongNumber, db)
          else xaddCore db now key maxlen entryID rest2

/-! ### XRANGE / XREVRANGE (src/cmd_stream.go lines 150-264) -/

/-- reversedStreamEntries (repository helper not under src/): the entry list
in reverse. -/
def reversedStreamEntries (l : List StreamEntry) : List StreamEntry := l.reverse

/-- The scan loop of makeCmdXrange (src lines 222-251), verbatim: stop once
the accumulated result reaches `count`; scanning forward, stop at the first
entry above `endB` and skip entries below `start`; scanning in reverse
(over the reversed list), stop below `endB` and skip above `start`. -/
def xrangeLoop (reverse : Bool) (start endB : StreamID) (count : Int) :
    List StreamEntry → List StreamEntry → List StreamEntry
  | acc, [] => acc
  | acc, e :: es =>
    if (acc.length : Int) = count then acc
    else if reverse = false then
      if streamCmp e.id endB = 1 then acc
      else if streamCmp e.id start = -1 then xrangeLoop reverse start endB count acc es
      else xrangeLoop reverse start endB count (acc ++ [e]) es
    else
      if streamCmp e.id endB = -1 then acc
      else if streamCmp e.id start = 1 then xrangeLoop reverse start endB count acc es
      else xrangeLoop reverse start endB count (acc ++ [e]) es

/-- The body of makeCmdXrange after bound formatting (src lines 214-251):
reverse the entries for XREVRANGE, substitute the entry count for a COUNT of
0, and run the scan loop. -/
def xrangeScan (entries : List StreamEntry) (start endB : StreamID)
    (count : Int) (reverse : Bool) : List StreamEntry :=
  let entries := if reverse then reversedStreamEntries entries else entries
  let count := if count = 0 then (entries.length : Int) else count
  xrangeLoop reverse start endB count [] entries

/-! ### XREADGROUP (src/cmd_stream.go lines 360-533) and XREAD reply -/

/-- The reply shape of writeXread (src lines 729-752): a null array when no
stream yielded data, else one (stream, entries) pair per yielding stream in
request order. -/
inductive XreadReply
  | null
  | streamsList (l : List (String × List StreamEntry))
deriving DecidableEq

/-- writeXread (src lines 729-752): null on an empty result map; otherwise
the requested streams in order, skipping those absent from the result. -/
def writeXread (streams : List String) (res : List (String × List StreamEntry)) :
    XreadReply :=
  if res = [] then .null
  else .streamsList (streams.filterMap (fun s => (res.lookup s).map (fun es => (s, es))))

/-- The loop of the xreadgroup helper (src lines 510-531), one requested
(key, id) pair at a time: resolve the group (a missing group is the NOGROUP
error), validate a concrete ID token, run the group read against the current
state, and skip streams that yield nothing under ">".  The result map is an
association list (`assocSet`); group mutations made before a later error
persist, as they do through the Go pointers. -/
def xreadgroupGo (group consumer : String) (noack : Bool) (count : Int) (now : Nat) :
    List (String × String) → List (String × List StreamEntry) → RedisDB →
    Except String (List (String × List StreamEntry)) × RedisDB
  | [], res, db => (.ok res, db)
  | (key, id) :: rest, res, db =>
    match db.streamGroup key group with
    | .error m => (.error m, db)
    | .ok none => (.error (errXreadgroup key group), db)
    | .ok (some g) =>
      if id != ">" && (parseStreamID id).isNone then (.error msgInvalidStreamID, db)
      else
        let pr := g.readGroup (db.entriesOf key) now consumer id count noack
        let db := db.setGroup key group pr.2
        if id == ">" && pr.1.isEmpty then
          xreadgroupGo group consumer noack count now rest res db
        else
          xreadgroupGo group consumer noack count now rest (assocSet res key pr.1) db

/-- xreadgroup (src lines 500-533): fold the requested streams and ids. -/
def xreadgroup (db : RedisDB) (group consumer : String) (noack : Bool)
    (streams ids : List String) (count : Int) (now : Nat) :
    Except String (List (String × List StreamEntry)) × RedisDB :=
  xreadgroupGo group consumer noack count now (streams.zip ids) [] db

/-- The parsed options of cmdXreadgroup (src lines 368-377). -/
structure XrgOpts where
  count : Int
  noack : Bool
  streams : List String
  ids : List String
  block : Bool
  blockTimeout : Int
deriving DecidableEq

/-- The zero value the Go options struct starts from. -/
def XrgOpts.init : XrgOpts := ⟨0, false, [], [], false, 0⟩

/-- parseBlock (src lines 924-938): BLOCK takes a non-negative integer
millisecond timeout. -/
def parseBlock (cmd : String) (args : List String) : Except String Int :=
  if args.length < 2 then .error (errWrongNumber cmd)
  else
    match args with
    | _ :: v :: _ =>
      match atoi v with
      | none => .error msgInvalidInt
      | some ms => if ms < 0 then .error msgTimeoutNegative else .ok ms
    | _ => .error (errWrongNumber cmd)

/-- The option-parsing loop of cmdXreadgroup (src lines 388-426): COUNT,
BLOCK, NOACK, then STREAMS splits the remaining arguments in two balanced
halves and stops the loop; anything else is an incorrect-argument error.
The fuel is the argument count; every iteration consumes at least one
argument, so the fuel-exhausted branch is unreachable. -/
def parseXrgLoop (cmd : String) : Nat → List String → XrgOpts → Except String XrgOpts
  | _, [], o => .ok o
  | 0, _, o => .ok o
  | fuel + 1, a :: rest, o =>
    if upperStr a = "COUNT" then
      match rest with
      | [] => .error (errWrongNumber cmd)
      | v :: rest2 =>
        match atoi v with
        | none => .error (msgAtoiError v)
        | some n => parseXrgLoop cmd fuel rest2 { o with count := n }
    else if upperStr a = "BLOCK" then
      match parseBlock cmd (a :: rest) with
      | .error m => .error m
      | .ok ms => parseXrgLoop cmd fuel (rest.drop 1) { o with block := true, blockTimeout := ms }
    else if upperStr a = "NOACK" then
      parseXrgLoop cmd fuel rest { o with noack := true }
    else if upperStr a = "STREAMS" then
      if rest.length % 2 != 0 then .error msgXreadUnbalanced
      else .ok { o with streams := rest.take (rest.length / 2), ids := rest.drop (rest.length / 2) }
    else .error ("ERR incorrect argument " ++ a)

/-- The synchronous execution of XREADGROUP (the withTx body, src lines
447-464): run xreadgroup once and turn its outcome into a reply. -/
def xreadgroupSync (db : RedisDB) (now : Nat) (o : XrgOpts) (group consumer : String) :
    Except String XreadReply × RedisDB :=
  match xreadgroup db group consumer o.noack o.streams o.ids o.count now with
  | (.error m, db1) => (.error m, db1)
  | (.ok res, db1) => (.ok (writeXread o.streams res), db1)

/-- The observable outcome of cmdXreadgroup: an immediate pre-transaction
error, a single synchronous execution, or registration with the blocking
coordinator (whose wait/notify behavior is external, spec §4.4). -/
inductive XrgOutcome
  | immediateErr (msg : String)
  | sync (reply : Except String XreadReply) (db : RedisDB)
  | blocked (timeoutMs : Int)

/-- cmdXreadgroup (src lines 360-498): arity and GROUP guards, option
parsing, the empty-streams guard, then — the decisive step for blocking —
any requested ID token other than ">" forces opts.block to false (src lines
440-444), and only a still-set block flag reaches the blocking coordinator. -/
def cmdXreadgroup (db : RedisDB) (now : Nat) (cmd : String) (args : List String) :
    XrgOutcome :=
  if args.length < 6 then .immediateErr (errWrongNumber cmd)
  else
    match args with
    | a0 :: group :: consumer :: rest =>
      if upperStr a0 != "GROUP" then .immediateErr msgSyntaxError
      else
        match parseXrgLoop cmd rest.length rest XrgOpts.init with
        | .error m => .immediateErr m
        | .ok o =>
          if o.streams.length = 0 || o.ids.length = 0 then
            .immediateErr (errWrongNumber cmd)
          else
            let block := o.block && o.ids.all (fun i => i == ">")
            if block then .blocked o.blockTimeout
            else
              let pr := xreadgroupSync db now o group consumer
              .sync pr.1 pr.2
    | _ => .immediateErr (errWrongNumber cmd)

/-! ### XACK (src/cmd_stream.go lines 536-564) -/

/-- cmdXack (src lines 536-564), minus the external wrappers: a missing group
(including a missing stream key) replies the integer 0 without touching
state; otherwise acknowledge and reply the removed count. -/
def cmdXack (db : RedisDB) (cmd : String) (args : List String) :
    Except String Int × RedisDB :=
  if args.length < 3 then (.error (errWrongNumber cmd), db)
  else
    match args with
    | key :: group :: ids =>
      match db.streamGroup key group with
      | .error m => (.error m, db)
      | .ok none => (.ok 0, db)
      | .ok (some g) =>
        match g.ack ids with
        | .error m => (.error m, db)
        | .ok (cnt, g1) => (.ok (cnt : Int), db.setGroup key group g1)
    | _ => (.error (errWrongNumber cmd), db)

/-! ### XPENDING (src/cmd_stream.go lines 755-922) -/

/-- The reply shape of writeXpendingSummary (src lines 829-866). -/
inductive XpendingSummary
  | empty
  | nonEmpty (total : Nat) (minID maxID : StreamID) (consumers : List (String × Nat))
deriving DecidableEq

/-- writeXpendingSummary (src lines 829-866): an empty pending set reports a
zero total, null min/max and a null consumer list; otherwise the total, the
first and last pending IDs, and — sorted by name for determinism — every
known consumer with a positive pending count. -/
def writeXpendingSummary (g : streamGroup) : XpendingSummary :=
  match g.pending with
  | [] => .empty
  | p0 :: ps =>
    let withPos := g.consumers.filter (fun c => decide (0 < g.pendingCount c))
    .nonEmpty (p0 :: ps).length p0.id ((p0 :: ps).getLast (by simp)).id
      ((sortStrings withPos).map (fun c => (c, g.pendingCount c)))

/-- One row of the XPENDING detail reply: message ID, consumer, milliseconds
since delivery, delivery count. -/
structure XpRow where
  id : StreamID
  consumer : String
  millis : Int
  count : Nat
deriving DecidableEq

/-- The reply shape of writeXpending (src lines 868-922). -/
inductive XpendingDetail
  | null
  | rows (rs : List XpRow)
deriving DecidableEq

/-- The rows a detail reply lists (none for the null reply). -/
def xpRows : XpendingDetail → List XpRow
  | .null => []
  | .rows rs => rs

/-- The filter of the writeXpending loop: matches the consumer filter when one
is given and lies within the inclusive [start, end] ID bounds. -/
def xpendingKeep (start endB : StreamID) (consumer : Option String)
    (p : pendingEntry) : Bool :=
  (match consumer with
   | some c => p.consumer == c
   | none => true)
  && !(decide (streamCmp p.id start < 0))
  && !(decide (streamCmp p.id endB > 0))

/-- The detail row built from a pending entry (src lines 907-912):
idle milliseconds are now minus the last delivery time. -/
def xpRowOf (now : Nat) (p : pendingEntry) : XpRow :=
  ⟨p.id, p.consumer, (now : Int) - (p.lastDelivery : Int), p.deliveryCount⟩

/-- The accumulation loop of writeXpending (src lines 893-913), verbatim:
stop once the result holds `count` rows, skip rows failing the consumer
filter or the ID bounds, emit the rest. -/
def xpendingLoop (now : Nat) (start endB : StreamID) (consumer : Option String)
    (count : Int) : List XpRow → List pendingEntry → List XpRow
  | acc, [] => acc
  | acc, p :: ps =>
    if (acc.length : Int) ≥ count then acc
    else if !(xpendingKeep start endB consumer p) then
      xpendingLoop now start endB consumer count acc ps
    else xpendingLoop now start endB consumer count (acc ++ [xpRowOf now p]) ps

/-- writeXpending (src lines 868-922): a null reply when nothing is pending
or the count is negative, otherwise the filtered, count-truncated rows. -/
def writeXpending (now : Nat) (g : streamGroup) (start endB : StreamID)
    (count : Int) (consumer : Option String) : XpendingDetail :=
  if g.pending.length = 0 || count < 0 then .null
  else .rows (xpendingLoop now start endB consumer count [] g.pending)

/-! ### Restatements of the XRANGE scan loop, used by its lemmas -/

/-- The scan loop with an explicit remaining budget instead of the
accumulated-length test. -/
def xrangeBudget (reverse : Bool) (start endB : StreamID) :
    Int → List StreamEntry → List StreamEntry
  | _, [] => []
  | b, e :: es =>
    if b = 0 then []
    else if reverse = false then
      if streamCmp e.id endB = 1 then []
      else if streamCmp e.id start = -1 then xrangeBudget reverse start endB b es
      else e :: xrangeBudget reverse start endB (b - 1) es
    else
      if streamCmp e.id endB = -1 then []
      else if streamCmp e.id start = 1 then xrangeBudget reverse start endB b es
      else e :: xrangeBudget reverse start endB (b - 1) es

/-- The scan loop with no budget at all. -/
def xrangeAll (reverse : Bool) (start endB : StreamID) :
    List StreamEntry → List StreamEntry
  | [] => []
  | e :: es =>
    if reverse = false then
      if streamCmp e.id endB = 1 then []
      else if streamCmp e.id start = -1 then xrangeAll reverse start endB es
      else e :: xrangeAll reverse start endB es
    else
      if streamCmp e.id endB = -1 then []
      else if streamCmp e.id start = 1 then xrangeAll reverse start endB es
      else e :: xrangeAll reverse start endB es

/-- The Boolean in-range test of a forward scan: start ≤ id ≤ end. -/
def inRangeF (start endB : StreamID) (e : StreamEntry) : Bool :=
  decide (idLe start e.id) && decide (idLe e.id endB)

/-- The Boolean in-range test of a reverse scan: end ≤ id ≤ start (the start
bound is the upper end of a reverse scan). -/
def inRangeR (start endB : StreamID) (e : StreamEntry) : Bool :=
  decide (idLe endB e.id) && decide (idLe e.id start)

/-- The ID token a request associates with a stream key: the second component
of the first (stream, id) pair for that key. -/
def reqId (streams ids : List String) (k : String) : Option String :=
  ((streams.zip ids).find? (fun p => p.1 == k)).map (fun p => p.2)

/-- The stream-log invariant (spec §3): the entry sequence is sorted strictly
ascending by ID and every present ID is at most the last allocated ID. -/
def streamInv (s : streamKey) : Prop :=
  s.entries.Pairwise (fun a b => idLt a.id b.id)
  ∧ ∀ e ∈ s.entries, idLe e.id s.lastID

instance (s : streamKey) : Decidable (streamInv s) := by
  unfold streamInv
  infer_instance

/-! ### Concrete fixtures used by the witnesses -/

/-- A small sorted two-entry stream log. -/
def scanEx : List StreamEntry := [⟨⟨1, 0⟩, ["f", "v"]⟩, ⟨⟨2, 0⟩, ["g", "w"]⟩]

/-- A stream holding `scanEx` with last allocated ID 2-0. -/
def streamEx : streamKey := ⟨scanEx, [], ⟨2, 0⟩⟩

/-- `streamEx` after appending 3-0. -/
def streamEx3 : streamKey :=
  ⟨scanEx ++ [⟨⟨3, 0⟩, ["h", "x"]⟩], [], ⟨3, 0⟩⟩

/-- A group with two pending rows and two known consumers. -/
def groupEx : streamGroup :=
  ⟨⟨2, 0⟩, [⟨⟨1, 0⟩, "beta", 10, 1⟩, ⟨⟨2, 0⟩, "alfa", 11, 2⟩], ["beta", "alfa"]⟩

/-- The options XREADGROUP parses from BLOCK 100 STREAMS k 0. -/
def xrgOptsEx : XrgOpts := ⟨0, false, ["k"], ["0"], true, 100⟩

/-- A database with one stream key "k" carrying group "g". -/
def dbEx : RedisDB :=
  ⟨fun _ => none,
   fun k => if k = "k" then some { streamEx with groups := [("g", groupEx)] } else none,
   fun _ => 0⟩

/-! ### Order lemmas for streamCmp -/

theorem streamCmp_eq_neg_one_iff (a b : StreamID) :
    streamCmp a b = -1 ↔ a.millis < b.millis ∨ (a.millis = b.millis ∧ a.seq < b.seq) := by
  unfold streamCmp
  split_ifs <;> (try simp_all) <;> omega

theorem streamCmp_eq_one_iff (a b : StreamID) :
    streamCmp a b = 1 ↔ b.millis < a.millis ∨ (a.millis = b.millis ∧ b.seq < a.seq) := by
  unfold streamCmp
  split_ifs <;> (try simp_all) <;> omega

theorem streamCmp_eq_zero_iff (a b : StreamID) : streamCmp a b = 0 ↔ a = b := by
  cases a with
  | mk am as =>
    cases b with
    | mk bm bs =>
      simp only [streamCmp, StreamID.mk.injEq]
      split_ifs <;> (try simp_all) <;> omega

theorem idLt_iff (a b : StreamID) :
    idLt a b ↔ a.millis < b.millis ∨ (a.millis = b.millis ∧ a.seq < b.seq) :=
  streamCmp_eq_neg_one_iff a b

theorem idLe_iff (a b : StreamID) :
    idLe a b ↔ a.millis < b.millis ∨ (a.millis = b.millis ∧ a.seq ≤ b.seq) := by
  unfold idLe streamCmp
  split_ifs <;> (try simp_all) <;> omega

theorem idLe_refl (a : StreamID) : idLe a a := by
  rw [idLe_iff]
  omega

theorem idLt_irrefl (a : StreamID) : ¬ idLt a a := by
  rw [idLt_iff]
  omega

theorem idLt_trans {a b c : StreamID} (h1 : idLt a b) (h2 : idLt b c) : idLt a c := by
  rw [idLt_iff] at *
  omega

theorem idLe_trans {a b c : StreamID} (h1 : idLe a b) (h2 : idLe b c) : idLe a c := by
  rw [idLe_iff] at *
  omega

theorem idLt_of_idLe_of_idLt {a b c : StreamID} (h1 : idLe a b) (h2 : idLt b c) :
    idLt a c := by
  rw [idLe_iff] at h1
  rw [idLt_iff] at *
  omega

theorem idLt_of_idLt_of_idLe {a b c : StreamID} (h1 : idLt a b) (h2 : idLe b c) :
    idLt a c := by
  rw [idLe_iff] at h2
  rw [idLt_iff] at *
  omega

theorem idLe_of_idLt {a b : StreamID} (h : idLt a b) : idLe a b := by
  rw [idLt_iff] at h
  rw [idLe_iff]
  omega

theorem not_idLt_iff (a b : StreamID) : ¬ idLt a b ↔ idLe b a := by
  rw [idLt_iff, idLe_iff]
  omega

theorem idLt_asymm {a b : StreamID} (h : idLt a b) : ¬ idLt b a := by
  rw [idLt_iff] at *
  omega

theorem ne_of_idLt {a b : StreamID} (h : idLt a b) : a ≠ b := by
  intro he
  exact idLt_irrefl a (he ▸ h)

theorem streamCmp_ne_one_iff (a b : StreamID) : ¬ streamCmp a b = 1 ↔ idLe a b := by
  rw [streamCmp_eq_one_iff, idLe_iff]
  omega

theorem streamCmp_eq_one_iff_idLt (a b : StreamID) : streamCmp a b = 1 ↔ idLt b a := by
  rw [streamCmp_eq_one_iff, idLt_iff]
  omega

theorem streamCmp_neg_iff_idLt (a b : StreamID) : streamCmp a b < 0 ↔ idLt a b := by
  unfold streamCmp
  rw [idLt_iff]
  split_ifs <;> (try simp_all) <;> omega

theorem streamCmp_pos_iff_idLt (a b : StreamID) : 0 < streamCmp a b ↔ idLt b a := by
  unfold streamCmp
  rw [idLt_iff]
  split_ifs <;> (try simp_all) <;> omega

/-! ### The XRANGE scan loop, restated without the accumulator -/

theorem xrangeLoop_eq_budget (reverse : Bool) (start endB : StreamID) (count : Int)
    (l : List StreamEntry) :
    ∀ acc, xrangeLoop reverse start endB count acc l
      = acc ++ xrangeBudget reverse start endB (count - acc.length) l := by
  induction l with
  | nil => intro acc; simp [xrangeLoop, xrangeBudget]
  | cons e es ih =>
    intro acc
    by_cases hb : (acc.length : Int) = count
    · have hz : count - (acc.length : Int) = 0 := by omega
      simp [xrangeLoop, xrangeBudget, hb, hz]
    · have hz : ¬ (count - (acc.length : Int) = 0) := by omega
      cases reverse with
      | false =>
        by_cases h1 : streamCmp e.id endB = 1
        · simp [xrangeLoop, xrangeBudget, hb, hz, h1]
        · by_cases h2 : streamCmp e.id start = -1
          · simp [xrangeLoop, xrangeBudget, hb, hz, h1, h2, ih]
          · have harr : count - ((acc.length : Int) + 1) = count - acc.length - 1 := by omega
            simp [xrangeLoop, xrangeBudget, hb, hz, h1, h2, ih, harr]
      | true =>
        by_cases h1 : streamCmp e.id endB = -1
        · simp [xrangeLoop, xrangeBudget, hb, hz, h1]
        · by_cases h2 : streamCmp e.id start = 1
          · simp [xrangeLoop, xrangeBudget, hb, hz, h1, h2, ih]
          · have harr : count - ((acc.length : Int) + 1) = count - acc.length - 1 := by omega
            simp [xrangeLoop, xrangeBudget, hb, hz, h1, h2, ih, harr]

theorem xrangeBudget_eq_all (reverse : Bool) (start endB : StreamID) :
    ∀ (l : List StreamEntry) (b : Int),
      ((l.length : Int) ≤ b ∨ b < 0) →
      xrangeBudget reverse start endB b l = xrangeAll reverse start endB l := by
  intro l
  induction l with
  | nil => intro b _; simp [xrangeBudget, xrangeAll]
  | cons e es ih =>
    intro b hb
    have hz : ¬ (b = 0) := by
      simp at hb
      omega
    have hrest : ((es.length : Int) ≤ b ∨ b < 0) := by
      simp at hb
      omega
    have hrest1 : ((es.length : Int) ≤ b - 1 ∨ b - 1 < 0) := by
      simp at hb
      omega
    cases reverse with
    | false =>
      by_cases h1 : streamCmp e.id endB = 1
      · simp [xrangeBudget, xrangeAll, hz, h1]
      · by_cases h2 : streamCmp e.id start = -1
        · simp [xrangeBudget, xrangeAll, hz, h1, h2, ih _ hrest]
        · simp [xrangeBudget, xrangeAll, hz, h1, h2, ih _ hrest1]
    | true =>
      by_cases h1 : streamCmp e.id endB = -1
      · simp [xrangeBudget, xrangeAll, hz, h1]
      · by_cases h2 : streamCmp e.id start = 1
        · simp [xrangeBudget, xrangeAll, hz, h1, h2, ih _ hrest]
        · simp [xrangeBudget, xrangeAll, hz, h1, h2, ih _ hrest1]

/-- The scan result is always a sublist of the scanned list (hence inherits
its ordering). -/
theorem xrangeBudget_sublist (reverse : Bool) (start endB : StreamID) :
    ∀ (l : List StreamEntry) (b : Int),
      List.Sublist (xrangeBudget reverse start endB b l) l := by
  intro l
  induction l with
  | nil => intro b; simp [xrangeBudget]
  | cons e es ih =>
    intro b
    by_cases hz : b = 0
    · simp [xrangeBudget, hz]
    · cases reverse with
      | false =>
        by_cases h1 : streamCmp e.id endB = 1
        · simp [xrangeBudget, hz, h1]
        · by_cases h2 : streamCmp e.id start = -1
          · simp only [xrangeBudget, hz, h1, h2, if_false, if_true, if_neg, ite_false]
            exact List.Sublist.cons e (ih b)
          · simp only [xrangeBudget, hz, h1, h2, ite_false, ite_true, if_neg]
            exact List.Sublist.cons₂ e (ih (b - 1))
      | true =>
        by_cases h1 : streamCmp e.id endB = -1
        · simp [xrangeBudget, hz, h1]
        · by_cases h2 : streamCmp e.id start = 1
          · simp only [xrangeBudget, hz, h1, h2, if_false, if_true, if_neg, ite_false]
            exact List.Sublist.cons e (ih b)
          · simp only [xrangeBudget, hz, h1, h2, ite_false, ite_true, if_neg]
            exact List.Sublist.cons₂ e (ih (b - 1))

/-- On a list sorted strictly ascending by ID, the unbounded forward scan is
exactly the in-range filter. -/
theorem xrangeAll_forward_filter (start endB : StreamID) :
    ∀ (l : List StreamEntry),
      l.Pairwise (fun a b => idLt a.id b.id) →
      xrangeAll false start endB l = l.filter (inRangeF start endB) := by
  intro l
  induction l with
  | nil => intro _; simp [xrangeAll]
  | cons e es ih =>
    intro hp
    rw [List.pairwise_cons] at hp
    by_cases h1 : streamCmp e.id endB = 1
    · have hgt : idLt endB e.id := (streamCmp_eq_one_iff_idLt _ _).1 h1
      have hne : inRangeF start endB e = false := by
        have : ¬ idLe e.id endB := by
          rw [← not_idLt_iff] at *
          intro hc
          exact hc hgt
        simp [inRangeF, this]
      have hrest : es.filter (inRangeF start endB) = [] := by
        apply List.filter_eq_nil_iff.2
        intro f hf
        have hef : idLt e.id f.id := hp.1 f hf
        have : ¬ idLe f.id endB := by
          rw [← not_idLt_iff]
          intro hc
          exact hc (idLt_trans hgt hef)
        simp [inRangeF, this]
      simp [xrangeAll, h1, hne, hrest]
    · by_cases h2 : streamCmp e.id start = -1
      · have hlt : idLt e.id start := h2
        have hne : inRangeF start endB e = false := by
          have : ¬ idLe start e.id := by
            rw [← not_idLt_iff]
            intro hc
            exact hc hlt
          simp [inRangeF, this]
        simp [xrangeAll, h1, h2, hne, ih hp.2]
      · have hin : inRangeF start endB e = true := by
          have hle1 : idLe start e.id := (not_idLt_iff e.id start).1 h2
          have hle2 : idLe e.id endB := (streamCmp_ne_one_iff _ _).1 h1
          simp [inRangeF, hle1, hle2]
        simp [xrangeAll, h1, h2, hin, ih hp.2]

/-- On a list sorted strictly descending by ID, the unbounded reverse scan is
exactly the in-range filter. -/
theorem xrangeAll_reverse_filter (start endB : StreamID) :
    ∀ (l : List StreamEntry),
      l.Pairwise (fun a b => idLt b.id a.id) →
      xrangeAll true start endB l = l.filter (inRangeR start endB) := by
  intro l
  induction l with
  | nil => intro _; simp [xrangeAll]
  | cons e es ih =>
    intro hp
    rw [List.pairwise_cons] at hp
    by_cases h1 : streamCmp e.id endB = -1
    · have hgt : idLt e.id endB := h1
      have hne : inRangeR start endB e = false := by
        have : ¬ idLe endB e.id := by
          rw [← not_idLt_iff]
          intro hc
          exact hc hgt
        simp [inRangeR, this]
      have hrest : es.filter (inRangeR start endB) = [] := by
        apply List.filter_eq_nil_iff.2
        intro f hf
        have hef : idLt f.id e.id := hp.1 f hf
        have : ¬ idLe endB f.id := by
          rw [← not_idLt_iff]
          intro hc
          exact hc (idLt_trans hef hgt)
        simp [inRangeR, this]
      simp [xrangeAll, h1, hne, hrest]
    · by_cases h2 : streamCmp e.id start = 1
      · have hlt : idLt start e.id := (streamCmp_eq_one_iff_idLt _ _).1 h2
        have hne : inRangeR start endB e = false := by
          have : ¬ idLe e.id start := by
            rw [← not_idLt_iff]
            intro hc
            exact hc hlt
          simp [inRangeR, this]
        simp [xrangeAll, h1, h2, hne, ih hp.2]
      · have hin : inRangeR start endB e = true := by
          have hle1 : idLe endB e.id := (not_idLt_iff e.id endB).1 h1
          have hle2 : idLe e.id start := (streamCmp_ne_one_iff _ _).1 h2
          simp [inRangeR, hle1, hle2]
        simp [xrangeAll, h1, h2, hin, ih hp.2]

/-- With a COUNT of 0 the forward scan of a sorted stream is exactly the
in-range filter: unbounded and inclusive on both ends. -/
theorem xrangeScan_zero_false (entries : List StreamEntry) (start endB : StreamID)
    (hs : entries.Pairwise (fun a b => idLt a.id b.id)) :
    xrangeScan entries start endB 0 false = entries.filter (inRangeF start endB) := by
  unfold xrangeScan reversedStreamEntries
  simp only [Bool.false_eq_true, if_false, if_true, ite_false, ite_true, if_pos rfl]
  rw [xrangeLoop_eq_budget]
  simp only [List.nil_append, List.length_nil, Nat.cast_zero, sub_zero]
  rw [xrangeBudget_eq_all _ _ _ _ _ (Or.inl le_rfl)]
  exact xrangeAll_forward_filter start endB entries hs

/-- With a COUNT of 0 the reverse scan of a sorted stream is exactly the
in-range filter of the reversed entries. -/
theorem xrangeScan_zero_true (entries : List StreamEntry) (start endB : StreamID)
    (hs : entries.Pairwise (fun a b => idLt a.id b.id)) :
    xrangeScan entries start endB 0 true
      = entries.reverse.filter (inRangeR start endB) := by
  unfold xrangeScan reversedStreamEntries
  simp only [if_true, ite_true, if_pos rfl]
  rw [xrangeLoop_eq_budget]
  simp only [List.nil_append, List.length_nil, Nat.cast_zero, sub_zero]
  rw [xrangeBudget_eq_all _ _ _ _ _ (Or.inl le_rfl)]
  exact xrangeAll_reverse_filter start endB entries.reverse
    (List.pairwise_reverse.mpr hs)

/-- Whatever the COUNT, the scan result is a sublist of the (possibly
reversed) entries. -/
theorem xrangeScan_sublist (entries : List StreamEntry) (start endB : StreamID)
    (count : Int) (reverse : Bool) :
    List.Sublist (xrangeScan entries start endB count reverse)
      (if reverse then entries.reverse else entries) := by
  unfold xrangeScan reversedStreamEntries
  cases reverse with
  | false =>
    simp only [Bool.false_eq_true, if_false, ite_false]
    rw [xrangeLoop_eq_budget]
    simp only [List.nil_append, List.length_nil, Nat.cast_zero, sub_zero]
    exact xrangeBudget_sublist _ _ _ _ _
  | true =>
    simp only [if_true, ite_true]
    rw [xrangeLoop_eq_budget]
    simp only [List.nil_append, List.length_nil, Nat.cast_zero, sub_zero]
    exact xrangeBudget_sublist _ _ _ _ _

/-- Every ID is at least the minimum ID 0-0. -/
theorem idLe_min (e : StreamID) : idLe ⟨0, 0⟩ e := by
  rw [idLe_iff]
  dsimp only
  omega

/-- Every uint64-valued ID is at most the maximum ID. -/
theorem idLe_max (e : StreamID) (h1 : e.millis ≤ uint64Max) (h2 : e.seq ≤ uint64Max) :
    idLe e ⟨uint64Max, uint64Max⟩ := by
  rw [idLe_iff]
  dsimp only
  omega

/-! ### Claim theorems -/

/-- C3: For every XRANGE/XREVRANGE query over any (sorted, uint64-valued)
stream: with a COUNT of 0 (unbounded) an entry is returned iff its ID lies
within the inclusive range bounds (for XREVRANGE the start bound is the upper
end); for every COUNT the results are in ascending ID order for XRANGE and
descending for XREVRANGE; the "-"/"+" tokens format to the minimum/maximum
bounds in both directions; and the XREVRANGE result over the full range is
exactly the reverse of the XRANGE result over the full range (which is the
whole stream). -/
theorem xrange_scan_spec (entries : List StreamEntry)
    (hs : entries.Pairwise (fun a b => idLt a.id b.id))
    (h64 : ∀ e ∈ entries, e.id.millis ≤ uint64Max ∧ e.id.seq ≤ uint64Max) :
    (∀ start endB e, e ∈ xrangeScan entries start endB 0 false
        ↔ e ∈ entries ∧ idLe start e.id ∧ idLe e.id endB)
    ∧ (∀ start endB e, e ∈ xrangeScan entries start endB 0 true
        ↔ e ∈ entries ∧ idLe endB e.id ∧ idLe e.id start)
    ∧ (∀ start endB count, (xrangeScan entries start endB count false).Pairwise
        (fun a b => idLt a.id b.id))
    ∧ (∀ start endB count, (xrangeScan entries start endB count true).Pairwise
        (fun a b => idLt b.id a.id))
    ∧ (formatStreamRangeBound "-" true false = some ⟨0, 0⟩
        ∧ formatStreamRangeBound "+" false false = some ⟨uint64Max, uint64Max⟩
        ∧ formatStreamRangeBound "+" true true = some ⟨uint64Max, uint64Max⟩
        ∧ formatStreamRangeBound "-" false true = some ⟨0, 0⟩)
    ∧ xrangeScan entries ⟨0, 0⟩ ⟨uint64Max, uint64Max⟩ 0 false = entries
    ∧ xrangeScan entries ⟨uint64Max, uint64Max⟩ ⟨0, 0⟩ 0 true
        = (xrangeScan entries ⟨0, 0⟩ ⟨uint64Max, uint64Max⟩ 0 false).reverse := by
  have hfull : xrangeScan entries ⟨0, 0⟩ ⟨uint64Max, uint64Max⟩ 0 false = entries := by
    rw [xrangeScan_zero_false entries _ _ hs]
    apply List.filter_eq_self.mpr
    intro e he
    have h := h64 e he
    simp [inRangeF, idLe_min, idLe_max e.id h.1 h.2]
  refine ⟨?_, ?_, ?_, ?_, ⟨by decide, by decide, by decide, by decide⟩, hfull, ?_⟩
  · intro start endB e
    rw [xrangeScan_zero_false entries start endB hs, List.mem_filter]
    simp [inRangeF]
  · intro start endB e
    rw [xrangeScan_zero_true entries start endB hs, List.mem_filter, List.mem_reverse]
    simp [inRangeR]
  · intro start endB count
    have hsub := xrangeScan_sublist entries start endB count false
    simp only [Bool.false_eq_true, if_false, ite_false] at hsub
    exact hs.sublist hsub
  · intro start endB count
    have hsub := xrangeScan_sublist entries start endB count true
    simp only [if_true, ite_true] at hsub
    exact (List.pairwise_reverse.mpr hs).sublist hsub
  · rw [hfull, xrangeScan_zero_true entries _ _ hs]
    apply List.filter_eq_self.mpr
    intro e he
    rw [List.mem_reverse] at he
    have h := h64 e he
    simp [inRangeR, idLe_min, idLe_max e.id h.1 h.2]

/-- Witness for C3 at a concrete two-entry stream. -/
theorem xrange_scan_spec_witness :
    (scanEx.Pairwise (fun a b => idLt a.id b.id)
      ∧ ∀ e ∈ scanEx, e.id.millis ≤ uint64Max ∧ e.id.seq ≤ uint64Max)
    ∧ xrangeScan scanEx ⟨0, 0⟩ ⟨uint64Max, uint64Max⟩ 0 false = scanEx := by
  refine ⟨⟨by decide, by decide⟩, ?_⟩
  exact (xrange_scan_spec scanEx (by decide) (by decide)).2.2.2.2.2.1

/-- A successful append (wildcard or explicit) appends one entry whose ID is
strictly above the previous last allocated ID, and advances the last
allocated ID to it. -/
theorem add_ok_shape (s : streamKey) (tok : String) (vals : List String) (now : Nat)
    (i : StreamID) (s1 : streamKey) (h : s.add tok vals now = .ok (i, s1)) :
    s1.entries = s.entries ++ [⟨i, vals⟩] ∧ s1.lastID = i ∧ idLt s.lastID i := by
  simp only [streamKey.add] at h
  by_cases hw : tok = "*"
  · rw [if_pos hw] at h
    by_cases hm : s.lastID.millis < max now s.lastID.millis
    · rw [if_pos hm] at h
      cases h
      refine ⟨rfl, rfl, ?_⟩
      rw [idLt_iff]
      exact Or.inl hm
    · rw [if_neg hm] at h
      cases h
      have h1 := Nat.le_max_right now s.lastID.millis
      have hms : max now s.lastID.millis = s.lastID.millis :=
        Nat.le_antisymm (by omega) h1
      refine ⟨rfl, rfl, ?_⟩
      rw [idLt_iff]
      dsimp only
      right
      exact ⟨hms.symm, Nat.lt_succ_self _⟩
  · rw [if_neg hw] at h
    cases hp : parseStreamID tok with
    | none =>
      rw [hp] at h
      simp only [] at h
      cases h
    | some nid =>
      rw [hp] at h
      simp only [] at h
      by_cases hc : streamCmp nid s.lastID = 1
      · rw [if_pos hc] at h
        cases h
        exact ⟨rfl, rfl, (streamCmp_eq_one_iff_idLt _ _).1 hc⟩
      · rw [if_neg hc] at h
        cases h

/-- A successful append preserves the stream-log invariant. -/
theorem add_ok_inv (s : streamKey) (tok : String) (vals : List String) (now : Nat)
    (i : StreamID) (s1 : streamKey) (hinv : streamInv s)
    (h : s.add tok vals now = .ok (i, s1)) : streamInv s1 := by
  obtain ⟨hent, hlast, hlt⟩ := add_ok_shape s tok vals now i s1 h
  constructor
  · rw [hent]
    rw [List.pairwise_append]
    refine ⟨hinv.1, List.pairwise_singleton _ _, ?_⟩
    intro a ha b hb
    rw [List.mem_singleton] at hb
    subst hb
    exact idLt_of_idLe_of_idLt (hinv.2 a ha) hlt
  · intro e he
    rw [hent, List.mem_append, List.mem_singleton] at he
    rw [hlast]
    cases he with
    | inl hin => exact idLe_trans (hinv.2 e hin) (idLe_of_idLt hlt)
    | inr heq => subst heq; exact idLe_refl _

/-- The explicit-ID branch of the append: fail exactly when the ID is not
strictly above the last allocated ID. -/
theorem add_explicit_cases (s : streamKey) (tok : String) (vals : List String)
    (now : Nat) (i : StreamID) (hp : parseStreamID tok = some i) (hne : tok ≠ "*") :
    (¬ idLt s.lastID i → s.add tok vals now = .error .invalidEntryID)
    ∧ (idLt s.lastID i → s.add tok vals now
        = .ok (i, { s with entries := s.entries ++ [⟨i, vals⟩], lastID := i })) := by
  unfold streamKey.add
  rw [if_neg hne, hp]
  simp only []
  constructor
  · intro hnl
    rw [if_neg ?_]
    intro hc
    exact hnl ((streamCmp_eq_one_iff_idLt _ _).1 hc)
  · intro hl
    rw [if_pos ((streamCmp_eq_one_iff_idLt i s.lastID).2 hl)]

/-- Trimming preserves the last allocated ID and the invariant. -/
theorem trim_preserves (s : streamKey) (n : Nat) :
    (s.trim n).lastID = s.lastID ∧ (streamInv s → streamInv (s.trim n)) := by
  refine ⟨rfl, fun hinv => ⟨?_, ?_⟩⟩
  · exact hinv.1.sublist (List.drop_sublist _ _)
  · intro e he
    exact hinv.2 e ((List.drop_sublist _ _).subset he)

/-- Deletion preserves the last allocated ID and the invariant. -/
theorem delete_preserves (s : streamKey) (ids : List String) (n : Nat)
    (s1 : streamKey) (h : s.delete ids = .ok (n, s1)) :
    s1.lastID = s.lastID ∧ (streamInv s → streamInv s1) := by
  unfold streamKey.delete at h
  cases hm : ids.mapM parseStreamID with
  | none => rw [hm] at h; cases h
  | some parsed =>
    rw [hm] at h
    cases h
    refine ⟨rfl, fun hinv => ⟨?_, ?_⟩⟩
    · exact hinv.1.sublist (List.filter_sublist _)
    · intro e he
      exact hinv.2 e ((List.filter_sublist _).subset he)

/-- C1: appending an explicit ID fails with the ID-ordering error whenever
the ID is not strictly greater than the stream's last allocated (maximum
ever) ID and succeeds whenever it is; trimming and deletion do not move that
maximum, so neither re-opens ID reuse; and every successful append keeps the
entry sequence sorted strictly ascending by ID with no duplicate IDs. -/
theorem xadd_id_monotonic (s : streamKey) (tok : String) (vals : List String)
    (now : Nat) (i : StreamID) (hinv : streamInv s)
    (hp : parseStreamID tok = some i) (hne : tok ≠ "*") :
    (¬ idLt s.lastID i → s.add tok vals now = .error .invalidEntryID)
    ∧ (idLt s.lastID i → ∃ s1, s.add tok vals now = .ok (i, s1)
        ∧ s1.entries = s.entries ++ [⟨i, vals⟩])
    ∧ (∀ tok2 vals2 now2 i2 s2, s.add tok2 vals2 now2 = .ok (i2, s2) →
        streamInv s2 ∧ s2.entries.Pairwise (fun a b => idLt a.id b.id)
        ∧ (s2.entries.map (fun e => e.id)).Nodup)
    ∧ (∀ n, (s.trim n).lastID = s.lastID)
    ∧ (∀ ids n s1, s.delete ids = .ok (n, s1) → s1.lastID = s.lastID) := by
  refine ⟨(add_explicit_cases s tok vals now i hp hne).1, ?_, ?_, ?_, ?_⟩
  · intro hl
    exact ⟨_, (add_explicit_cases s tok vals now i hp hne).2 hl, rfl⟩
  · intro tok2 vals2 now2 i2 s2 h2
    have hinv2 := add_ok_inv s tok2 vals2 now2 i2 s2 hinv h2
    refine ⟨hinv2, hinv2.1, ?_⟩
    have hpm : (s2.entries.map (fun e => e.id)).Pairwise (fun a b => idLt a b) :=
      (List.pairwise_map).mpr hinv2.1
    exact hpm.imp (fun h => ne_of_idLt h)
  · intro n
    exact (trim_preserves s n).1
  · intro ids n s1 h1
    exact (delete_preserves s ids n s1 h1).1

/-- On an error reply the database step of XADD leaves the version counters
and every non-stream key alone, leaves every existing stream alone, and at
most creates one fresh empty stream (under a key that held none). -/
theorem xaddCore_error (db : RedisDB) (now : Nat) (key : String) (maxlen : Int)
    (entryID : String) (values : List String) (m : String)
    (h : (xaddCore db now key maxlen entryID values).1 = .error m) :
    (xaddCore db now key maxlen entryID values).2.keyVersion = db.keyVersion
    ∧ (xaddCore db now key maxlen entryID values).2.otherKeys = db.otherKeys
    ∧ ∀ k, (xaddCore db now key maxlen entryID values).2.streamKeys k = db.streamKeys k
        ∨ (db.streamKeys k = none
            ∧ (xaddCore db now key maxlen entryID values).2.streamKeys k
                = some emptyStreamKey) := by
  unfold xaddCore at h ⊢
  cases hs : db.stream key with
  | error m2 =>
    simp only [hs] at h ⊢
    first
    | trivial
    | exact ⟨by trivial, by trivial, fun k => Or.inl (by trivial)⟩
  | ok sOpt =>
    have hkey : sOpt = none → db.streamKeys key = none := by
      intro hnone
      subst hnone
      unfold RedisDB.stream at hs
      cases ho : db.otherKeys key with
      | some t => rw [ho] at hs; cases hs
      | none =>
        rw [ho] at hs
        simp only [] at hs
        exact Except.ok.inj hs
    cases sOpt with
    | some s =>
      simp only [hs] at h ⊢
      cases ha : s.add entryID values now with
      | error e =>
        cases e
        simp only [ha] at h ⊢
        first
        | trivial
        | exact ⟨by trivial, by trivial, fun k => Or.inl (by trivial)⟩
      | ok pr =>
        simp only [ha] at h
        cases h
    | none =>
      simp only [hs] at h ⊢
      cases ha : emptyStreamKey.add entryID values now with
      | error e =>
        cases e
        simp only [RedisDB.newStream, ha] at h ⊢
        refine ⟨by trivial, by trivial, fun k => ?_⟩
        by_cases hk : k = key
        · subst hk
          exact Or.inr ⟨hkey rfl, by simp [RedisDB.setStream]⟩
        · exact Or.inl (by simp [RedisDB.setStream, hk])
      | ok pr =>
        simp only [RedisDB.newStream, ha] at h
        cases h

/-- C2 counterexample: XADD with the invalid explicit ID 0-0 on an absent key
fails with the invalid-stream-ID error, yet an empty stream key has been
created where none existed — the database is not unchanged. -/
theorem xadd_failure_creates_stream_key :
    (cmdXadd emptyDB 123 "XADD" ["k", "0-0", "f", "v"]).1 = .error msgInvalidStreamID
    ∧ emptyDB.streamKeys "k" = none
    ∧ (cmdXadd emptyDB 123 "XADD" ["k", "0-0", "f", "v"]).2.streamKeys "k"
        = some emptyStreamKey :=
  ⟨rfl, rfl, by decide⟩

/-- C2 as amended: for every XADD invocation that fails, no entry is appended
anywhere, no trim occurs, no key version is bumped and no non-stream key is
touched; the one deviation from the claim is that when the requested key held
no stream, an empty stream key may have been created by the failed run. -/
theorem xadd_failure_mutation_scope (db : RedisDB) (now : Nat) (cmd : String)
    (args : List String) (m : String)
    (h : (cmdXadd db now cmd args).1 = .error m) :
    (cmdXadd db now cmd args).2.keyVersion = db.keyVersion
    ∧ (cmdXadd db now cmd args).2.otherKeys = db.otherKeys
    ∧ ∀ k, (cmdXadd db now cmd args).2.streamKeys k = db.streamKeys k
        ∨ (db.streamKeys k = none
            ∧ (cmdXadd db now cmd args).2.streamKeys k = some emptyStreamKey) := by
  unfold cmdXadd at h ⊢
  by_cases hlen : args.length < 4
  · simp only [if_pos hlen] at h ⊢
    first
    | trivial
    | exact ⟨by trivial, by trivial, fun k => Or.inl (by trivial)⟩
  · simp only [if_neg hlen] at h ⊢
    cases args with
    | nil =>
      first
      | trivial
      | exact ⟨by trivial, by trivial, fun k => Or.inl (by trivial)⟩
    | cons key rest =>
      cases hpm : parseMaxlen rest with
      | error m2 =>
        simp only [hpm] at h ⊢
        first
        | trivial
        | exact ⟨by trivial, by trivial, fun k => Or.inl (by trivial)⟩
      | ok pr =>
        obtain ⟨maxlen, rest1⟩ := pr
        simp only [hpm] at h ⊢
        cases rest1 with
        | nil =>
          first
          | trivial
          | exact ⟨by trivial, by trivial, fun k => Or.inl (by trivial)⟩
        | cons entryID rest2 =>
          by_cases hpair : (decide (rest2.length = 0) || (rest2.length % 2 != 0)) = true
          · simp only [hpair, if_true, ite_true] at h ⊢
            first
            | trivial
            | exact ⟨by trivial, by trivial, fun k => Or.inl (by trivial)⟩
          · simp only [hpair, if_false, ite_false, Bool.not_eq_true] at h ⊢
            rw [if_neg ?_] at h ⊢
            · exact xaddCore_error db now key maxlen entryID rest2 m h
            · simp
            · simp

/-- Witness for the amended C2 at the concrete failing input. -/
theorem xadd_failure_mutation_scope_witness :
    ((cmdXadd emptyDB 123 "XADD" ["k", "0-0", "f", "v"]).1 = .error msgInvalidStreamID)
    ∧ (cmdXadd emptyDB 123 "XADD" ["k", "0-0", "f", "v"]).2.keyVersion
        = emptyDB.keyVersion := by
  refine ⟨rfl, ?_⟩
  exact (xadd_failure_mutation_scope emptyDB 123 "XADD" ["k", "0-0", "f", "v"]
    msgInvalidStreamID rfl).1

/-- A failing database step of XADD over an existing stream key leaves the
database entirely unchanged — in particular no trim happens: trimming only
follows a successful append inside the same atomic step. -/
theorem xaddCore_error_existing (db : RedisDB) (now : Nat) (key : String)
    (maxlen : Int) (entryID : String) (values : List String) (m : String)
    (sk : streamKey) (hex : db.streamKeys key = some sk)
    (h : (xaddCore db now key maxlen entryID values).1 = .error m) :
    (xaddCore db now key maxlen entryID values).2 = db := by
  unfold xaddCore at h ⊢
  cases hs : db.stream key with
  | error m2 => simp [hs]
  | ok sOpt =>
    cases sOpt with
    | some s =>
      simp only [hs] at h ⊢
      cases ha : s.add entryID values now with
      | error e => simp [ha]
      | ok pr =>
        simp only [ha] at h
        cases h
    | none =>
      exfalso
      unfold RedisDB.stream at hs
      cases ho : db.otherKeys key with
      | some t => rw [ho] at hs; cases hs
      | none =>
        rw [ho] at hs
        simp only [] at hs
        rw [Except.ok.inj hs] at hex
        cases hex

/-- C4: after a successful XADD with MAXLEN = n over a stream holding k
entries, the stream holds exactly min(n, k+1) entries, namely the most
recently appended suffix (the oldest entries are dropped first); and when the
append fails over an existing stream key, the database step changes nothing,
so trimming only ever follows a successful append in the same atomic step. -/
theorem xadd_maxlen_trim_spec (s : streamKey) (tok : String) (vals : List String)
    (now : Nat) (i : StreamID) (s1 : streamKey) (n : Nat)
    (h : s.add tok vals now = .ok (i, s1)) :
    (s1.trim n).entries
        = (s.entries ++ [StreamEntry.mk i vals]).drop (s.entries.length + 1 - n)
    ∧ (s1.trim n).entries.length = min n (s.entries.length + 1)
    ∧ List.IsSuffix ((s1.trim n).entries) (s.entries ++ [StreamEntry.mk i vals])
    ∧ (∀ db key maxlen entryID2 values2 m sk, db.streamKeys key = some sk →
        (xaddCore db now key maxlen entryID2 values2).1 = .error m →
        (xaddCore db now key maxlen entryID2 values2).2 = db) := by
  obtain ⟨hent, _, _⟩ := add_ok_shape s tok vals now i s1 h
  have hdrop : (s1.trim n).entries
      = (s.entries ++ [StreamEntry.mk i vals]).drop (s.entries.length + 1 - n) := by
    unfold streamKey.trim
    rw [hent]
    simp [List.length_append]
  refine ⟨hdrop, ?_, ?_, ?_⟩
  · rw [hdrop, List.length_drop]
    simp [List.length_append]
    omega
  · rw [hdrop]
    exact List.drop_suffix _ _
  · intro db key maxlen entryID2 values2 m sk hex he
    exact xaddCore_error_existing db now key maxlen entryID2 values2 m sk hex he

/-- The MAXLEN parser rejects a negative value with the literal error. -/
theorem parseMaxlen_negative (mtok nstr : String) (r1 r3 : List String) (n : Int)
    (hm : lowerStr mtok = "maxlen")
    (hshape : (r1 = nstr :: r3 ∧ nstr ≠ "~") ∨ r1 = "~" :: nstr :: r3)
    (hn : atoi nstr = some n) (hneg : n < 0) :
    parseMaxlen (mtok :: r1) = .error msgMaxlenNegative := by
  unfold parseMaxlen
  simp only []
  rw [if_pos hm]
  rcases hshape with ⟨hr, hne⟩ | hr
  · subst hr
    have hh : ¬ ((nstr :: r3).head? = some "~") := by simp [hne]
    rw [if_neg hh]
    simp only [hn, hneg, if_pos, ite_true]
  · subst hr
    have hh : (("~" :: nstr :: r3).head? = some "~") := rfl
    rw [if_pos hh]
    simp only [List.tail_cons, hn, hneg, if_pos, ite_true]

/-- C8: an XADD invocation whose MAXLEN argument parses as a negative integer
fails with exactly "ERR The MAXLEN argument must be >= 0." and performs no
mutation at all — the check fires before any database access, so no stream
key is created and nothing is appended. -/
theorem xadd_negative_maxlen_error (db : RedisDB) (now : Nat) (cmd : String)
    (key mtok nstr : String) (r1 r3 : List String) (n : Int)
    (hlen : ¬ (key :: mtok :: r1).length < 4)
    (hm : lowerStr mtok = "maxlen")
    (hshape : (r1 = nstr :: r3 ∧ nstr ≠ "~") ∨ r1 = "~" :: nstr :: r3)
    (hn : atoi nstr = some n) (hneg : n < 0) :
    cmdXadd db now cmd (key :: mtok :: r1) = (.error msgMaxlenNegative, db) := by
  have hpm : parseMaxlen (mtok :: r1) = .error msgMaxlenNegative :=
    parseMaxlen_negative mtok nstr r1 r3 n hm hshape hn hneg
  unfold cmdXadd
  rw [if_neg hlen]
  simp only [hpm]

/-- Witness for C8 at the concrete arguments XADD k MAXLEN -1 1-1 f v. -/
theorem xadd_negative_maxlen_error_witness :
    (¬ (["k", "MAXLEN", "-1", "1-1", "f", "v"] : List String).length < 4
      ∧ lowerStr "MAXLEN" = "maxlen"
      ∧ ("-1" : String) ≠ "~"
      ∧ atoi "-1" = some (-1)
      ∧ (-1 : Int) < 0)
    ∧ cmdXadd emptyDB 7 "XADD" ["k", "MAXLEN", "-1", "1-1", "f", "v"]
        = (.error msgMaxlenNegative, emptyDB) := by
  refine ⟨⟨by decide, by decide, by decide, by decide, by decide⟩, ?_⟩
  exact xadd_negative_maxlen_error emptyDB 7 "XADD" "k" "MAXLEN" "-1"
    ["-1", "1-1", "f", "v"] ["1-1", "f", "v"] (-1) (by decide) (by decide)
    (Or.inl ⟨rfl, by decide⟩) (by decide) (by decide)

/-- C10: XACK naming a key/group combination whose consumer group does not
exist — including when the stream key itself does not exist — replies the
integer 0 rather than a group-not-found error, and changes no state. -/
theorem xack_missing_group_zero (db : RedisDB) (cmd key group : String)
    (ids : List String) (hids : ids ≠ [])
    (hmiss : (db.otherKeys key = none ∧ db.streamKeys key = none)
      ∨ (db.otherKeys key = none ∧ ∃ s, db.streamKeys key = some s
          ∧ s.groups.lookup group = none)) :
    cmdXack db cmd (key :: group :: ids) = (.ok 0, db) := by
  have hsg : db.streamGroup key group = .ok none := by
    unfold RedisDB.streamGroup RedisDB.stream
    rcases hmiss with ⟨ho, hs⟩ | ⟨ho, s, hs, hg⟩
    · rw [ho]
      simp only []
      rw [hs]
    · rw [ho]
      simp only []
      rw [hs]
      simp only []
      rw [hg]
  have hlen : ¬ (key :: group :: ids).length < 3 := by
    cases ids with
    | nil => exact absurd rfl hids
    | cons a l => simp
  unfold cmdXack
  rw [if_neg hlen]
  simp only [hsg]

/-- C9: a cmdXreadgroup invocation that parsed a BLOCK option but whose
requested ID tokens include a concrete (non-">") ID never reaches the
blocking coordinator: blocking is silently disabled and the command runs the
group read exactly once, synchronously, returning that immediate outcome. -/
theorem xreadgroup_concrete_id_disables_block (db : RedisDB) (now : Nat)
    (cmd a0 group consumer : String) (rest : List String) (o : XrgOpts)
    (hlen : ¬ (a0 :: group :: consumer :: rest).length < 6)
    (hg : upperStr a0 = "GROUP")
    (hp : parseXrgLoop cmd rest.length rest XrgOpts.init = .ok o)
    (hid : ∃ i ∈ o.ids, i ≠ ">")
    (hs : o.streams.length ≠ 0) (hi : o.ids.length ≠ 0) :
    cmdXreadgroup db now cmd (a0 :: group :: consumer :: rest)
      = .sync (xreadgroupSync db now o group consumer).1
          (xreadgroupSync db now o group consumer).2 := by
  obtain ⟨i, hmem, hne⟩ := hid
  have hall : (o.ids.all (fun i => i == ">")) = false := by
    rw [List.all_eq_false]
    exact ⟨i, hmem, by simp [hne]⟩
  have hg2 : (upperStr a0 != "GROUP") = false := by simp [hg]
  unfold cmdXreadgroup
  rw [if_neg hlen]
  simp only [hg2, Bool.false_eq_true, if_false, ite_false, hp]
  have hguard : (decide (o.streams.length = 0) || decide (o.ids.length = 0)) = false := by
    simp [hs, hi]
  simp only [hguard, Bool.false_eq_true, if_false, ite_false, hall, Bool.and_false]

/-- Witness for C9 at BLOCK 100 STREAMS k 0 (a concrete ID, so no blocking). -/
theorem xreadgroup_concrete_id_disables_block_witness :
    (parseXrgLoop "XREADGROUP" 5 ["BLOCK", "100", "STREAMS", "k", "0"] XrgOpts.init
        = .ok xrgOptsEx
      ∧ upperStr "GROUP" = "GROUP" ∧ ("0" : String) ≠ ">")
    ∧ cmdXreadgroup emptyDB 5 "XREADGROUP"
        ["GROUP", "g", "c", "BLOCK", "100", "STREAMS", "k", "0"]
        = .sync (xreadgroupSync emptyDB 5 xrgOptsEx "g" "c").1
            (xreadgroupSync emptyDB 5 xrgOptsEx "g" "c").2 := by
  refine ⟨⟨rfl, rfl, by decide⟩, ?_⟩
  exact xreadgroup_concrete_id_disables_block emptyDB 5 "XREADGROUP" "GROUP" "g" "c"
    ["BLOCK", "100", "STREAMS", "k", "0"] xrgOptsEx (by decide) rfl rfl
    ⟨"0", by decide, by decide⟩ (by decide) (by decide)

theorem strLeAux_total : ∀ (x y : List Char), strLeAux x y = true ∨ strLeAux y x = true
  | [], _ => Or.inl rfl
  | _ :: _, [] => Or.inr rfl
  | a :: as, b :: bs => by
    by_cases hab : a = b
    · subst hab
      simp only [strLeAux, if_pos rfl]
      exact strLeAux_total as bs
    · have hba : ¬ b = a := fun h => hab h.symm
      simp only [strLeAux, if_neg hab, if_neg hba]
      rcases Nat.le_total a.toNat b.toNat with h | h
      · exact Or.inl (by simp [h])
      · exact Or.inr (by simp [h])

theorem strLeAux_trans : ∀ (x y z : List Char),
    strLeAux x y = true → strLeAux y z = true → strLeAux x z = true
  | [], _, _ => fun _ _ => rfl
  | a :: as, [], _ => fun h _ => by cases h
  | a :: as, b :: bs, [] => fun _ h => by
    by_cases hb : b = a
    · cases h
    · rw [strLeAux] at h
      cases h
  | a :: as, b :: bs, c :: cs => fun h1 h2 => by
    by_cases hab : a = b
    · subst hab
      rw [strLeAux, if_pos rfl] at h1
      by_cases hac : a = c
      · subst hac
        rw [strLeAux, if_pos rfl] at h2 ⊢
        exact strLeAux_trans as bs cs h1 h2
      · rw [strLeAux, if_neg hac] at h2 ⊢
        exact h2
    · rw [strLeAux, if_neg hab] at h1
      by_cases hbc : b = c
      · subst hbc
        rw [strLeAux, if_neg hab]
        exact h1
      · rw [strLeAux, if_neg hbc] at h2
        have h1n : a.toNat ≤ b.toNat := by
          have := of_decide_eq_true h1
          exact this
        have h2n : b.toNat ≤ c.toNat := of_decide_eq_true h2
        by_cases hac : a = c
        · exfalso
          subst hac
          have : a.toNat = b.toNat := Nat.le_antisymm h1n h2n
          have hval : a = b := Char.ext (UInt32.ext this)
          exact hab hval
        · rw [strLeAux, if_neg hac]
          exact decide_eq_true (Nat.le_trans h1n h2n)

instance : IsTotal String (fun a b => strLe a b = true) :=
  ⟨fun a b => strLeAux_total a.data b.data⟩

instance : IsTrans String (fun a b => strLe a b = true) :=
  ⟨fun a b c => strLeAux_trans a.data b.data c.data⟩

/-- In a list sorted ascending by ID, every element is at most the last. -/
theorem sorted_le_getLast {l : List pendingEntry}
    (h : l.Pairwise (fun a b => idLe a.id b.id)) (hne : l ≠ []) :
    ∀ p ∈ l, idLe p.id (l.getLast hne).id := by
  induction l with
  | nil => intro p hp; cases hp
  | cons a as ih =>
    intro p hp
    rw [List.pairwise_cons] at h
    cases as with
    | nil =>
      rw [List.mem_singleton] at hp
      subst hp
      exact idLe_refl _
    | cons b bs =>
      rw [List.getLast_cons (by simp)]
      rcases List.mem_cons.mp hp with hpa | hpas
      · subst hpa
        exact h.1 _ (List.getLast_mem _)
      · exact ih h.2 (by simp) p hpas

/-- In a list sorted ascending by ID, every element is at least the head. -/
theorem sorted_head_le {a : pendingEntry} {as : List pendingEntry}
    (h : (a :: as).Pairwise (fun x y => idLe x.id y.id)) :
    ∀ p ∈ a :: as, idLe a.id p.id := by
  intro p hp
  rw [List.pairwise_cons] at h
  rcases List.mem_cons.mp hp with hpa | hpas
  · subst hpa
    exact idLe_refl _
  · exact h.1 p hpas

/-- C5: the XPENDING summary reports, for an empty pending set, the
zero/null reply; for a non-empty one, total = number of pending rows, min/max
equal to the first/last rows of the ID-sorted pending sequence — which bound
every pending ID — and a per-consumer list holding exactly the consumers
with a positive pending count, with their counts, sorted by consumer name. -/
theorem xpending_summary_spec (g : streamGroup)
    (hsort : g.pending.Pairwise (fun a b => idLe a.id b.id))
    (hcov : ∀ p ∈ g.pending, p.consumer ∈ g.consumers) :
    (g.pending = [] → writeXpendingSummary g = .empty)
    ∧ (∀ total minID maxID cons,
        writeXpendingSummary g = .nonEmpty total minID maxID cons →
        total = g.pending.length
        ∧ minID ∈ g.pending.map (fun p => p.id)
        ∧ maxID ∈ g.pending.map (fun p => p.id)
        ∧ (∀ p ∈ g.pending, idLe minID p.id ∧ idLe p.id maxID)
        ∧ cons.Pairwise (fun a b => strLe a.1 b.1 = true)
        ∧ (∀ c k, (c, k) ∈ cons
            ↔ c ∈ g.consumers ∧ 0 < g.pendingCount c ∧ k = g.pendingCount c)
        ∧ (∀ c, (∃ k, (c, k) ∈ cons) ↔ 0 < g.pendingCount c)) := by
  have hwit : ∀ c, 0 < g.pendingCount c → c ∈ g.consumers := by
    intro c hpos
    unfold streamGroup.pendingCount at hpos
    obtain ⟨p, hpmem⟩ :=
      List.exists_mem_of_ne_nil _ (List.length_pos.mp hpos)
    rw [List.mem_filter] at hpmem
    have hc : p.consumer = c := by
      have := hpmem.2
      simpa using this
    rw [← hc]
    exact hcov p hpmem.1
  constructor
  · intro hp
    simp [writeXpendingSummary, hp]
  · intro total minID maxID cons heq
    cases hp : g.pending with
    | nil =>
      rw [writeXpendingSummary, hp] at heq
      cases heq
    | cons p0 ps =>
      rw [writeXpendingSummary, hp] at heq
      simp only [] at heq
      obtain ⟨htot, hmin, hmax, hcons⟩ := XpendingSummary.nonEmpty.inj heq
      have hsort2 : (p0 :: ps).Pairwise (fun a b => idLe a.id b.id) := hp ▸ hsort
      refine ⟨htot.symm, ?_, ?_, ?_, ?_, ?_, ?_⟩
      · rw [← hmin]
        exact List.mem_map_of_mem _ (List.mem_cons_self _ _)
      · rw [← hmax]
        exact List.mem_map_of_mem _ (List.getLast_mem _)
      · intro p hpmem
        exact ⟨hmin ▸ sorted_head_le hsort2 p hpmem,
          hmax ▸ sorted_le_getLast hsort2 (by simp) p hpmem⟩
      · rw [← hcons]
        apply List.pairwise_map.mpr
        have hsorted := List.sorted_insertionSort
          (fun a b => strLe a b = true)
          (g.consumers.filter (fun c => decide (0 < g.pendingCount c)))
        exact hsorted
      · intro c k
        rw [← hcons]
        constructor
        · intro hmem
          rw [List.mem_map] at hmem
          obtain ⟨c2, hc2, hpair⟩ := hmem
          have hc2c : c2 = c := congrArg Prod.fst hpair
          have hc2k : g.pendingCount c2 = k := congrArg Prod.snd hpair
          have hc2f : c2 ∈ g.consumers.filter (fun x => decide (0 < g.pendingCount x)) := by
            have hperm := List.perm_insertionSort
              (fun a b => strLe a b = true)
              (g.consumers.filter (fun x => decide (0 < g.pendingCount x)))
            exact hperm.mem_iff.mp hc2
          rw [List.mem_filter] at hc2f
          rw [hc2c] at hc2f hc2k
          exact ⟨hc2f.1, by simpa using hc2f.2, hc2k.symm⟩
        · intro ⟨hcmem, hpos, hk⟩
          rw [List.mem_map]
          refine ⟨c, ?_, by rw [hk]⟩
          have hperm := List.perm_insertionSort
            (fun a b => strLe a b = true)
            (g.consumers.filter (fun c => decide (0 < g.pendingCount c)))
          apply hperm.mem_iff.mpr
          rw [List.mem_filter]
          exact ⟨hcmem, by simpa using hpos⟩
      · intro c
        constructor
        · intro ⟨k, hmem⟩
          rw [← hcons, List.mem_map] at hmem
          obtain ⟨c2, hc2, hpair⟩ := hmem
          have hc2c : c2 = c := congrArg Prod.fst hpair
          rw [hc2c] at hc2
          have hperm := List.perm_insertionSort
            (fun a b => strLe a b = true)
            (g.consumers.filter (fun c => decide (0 < g.pendingCount c)))
          have := hperm.mem_iff.mp hc2
          rw [List.mem_filter] at this
          simpa using this.2
        · intro hpos
          refine ⟨g.pendingCount c, ?_⟩
          rw [← hcons, List.mem_map]
          refine ⟨c, ?_, rfl⟩
          have hperm := List.perm_insertionSort
            (fun a b => strLe a b = true)
            (g.consumers.filter (fun c => decide (0 < g.pendingCount c)))
          apply hperm.mem_iff.mpr
          rw [List.mem_filter]
          exact ⟨hwit c hpos, by simpa using hpos⟩

/-- Witness for C5 at the two-row group. -/
theorem xpending_summary_spec_witness :
    (groupEx.pending.Pairwise (fun a b => idLe a.id b.id)
      ∧ ∀ p ∈ groupEx.pending, p.consumer ∈ groupEx.consumers)
    ∧ 2 = groupEx.pending.length := by
  refine ⟨⟨by decide, by decide⟩, ?_⟩
  exact ((xpending_summary_spec groupEx (by decide) (by decide)).2 2 ⟨1, 0⟩ ⟨2, 0⟩
    [("alfa", 1), ("beta", 1)] (by decide)).1

/-- The XPENDING detail loop is the count-truncated, filtered, row-mapped
pending list. -/
theorem xpendingLoop_eq (now : Nat) (start endB : StreamID)
    (consumer : Option String) (count : Int) :
    ∀ (ps : List pendingEntry) (acc : List XpRow),
      xpendingLoop now start endB consumer count acc ps
        = acc ++ ((ps.filter (xpendingKeep start endB consumer)).map
            (xpRowOf now)).take (count - acc.length).toNat := by
  intro ps
  induction ps with
  | nil => intro acc; simp [xpendingLoop]
  | cons p ps2 ih =>
    intro acc
    by_cases hb : (acc.length : Int) ≥ count
    · have hz : (count - (acc.length : Int)).toNat = 0 := by omega
      simp [xpendingLoop, hb, hz]
    · have hnb : ¬ ((acc.length : Int) ≥ count) := hb
      by_cases hk : xpendingKeep start endB consumer p = true
      · have hsucc : (count - (acc.length : Int)).toNat
            = (count - ((acc.length : Int) + 1)).toNat + 1 := by omega
        rw [xpendingLoop]
        rw [if_neg hnb, if_neg (by simp [hk]), ih]
        rw [List.filter_cons_of_pos hk]
        simp only [List.map_cons, hsucc, List.take_succ_cons, List.length_append,
          List.length_cons, List.length_nil]
        simp [List.append_assoc]
      · rw [xpendingLoop]
        rw [if_neg hnb, if_pos (by simp [hk]), ih]
        rw [List.filter_cons_of_neg (by simp [hk])]

/-- C6: the XPENDING detail query returns no rows for a non-positive count
(null for a negative one); for a non-negative count it lists, in pending
order and truncated at the count, exactly the pending rows inside the
inclusive [start, end] ID bounds that match the optional consumer filter,
each row carrying idleMillis = now - lastDelivery and the delivery count
(`xpRowOf`); and the listed rows are in ascending ID order. -/
theorem xpending_detail_spec (now : Nat) (g : streamGroup) (start endB : StreamID)
    (count : Int) (consumer : Option String)
    (hsort : g.pending.Pairwise (fun a b => idLe a.id b.id)) :
    (count < 0 ∨ g.pending = [] → writeXpending now g start endB count consumer = .null)
    ∧ (count ≤ 0 → xpRows (writeXpending now g start endB count consumer) = [])
    ∧ (0 ≤ count → xpRows (writeXpending now g start endB count consumer)
        = ((g.pending.filter (xpendingKeep start endB consumer)).map
            (xpRowOf now)).take count.toNat)
    ∧ (∀ p, xpendingKeep start endB consumer p = true
        ↔ ((∀ c, consumer = some c → p.consumer = c)
            ∧ idLe start p.id ∧ idLe p.id endB))
    ∧ (xpRows (writeXpending now g start endB count consumer)).Pairwise
        (fun a b => idLe a.id b.id) := by
  have hkeep : ∀ p, xpendingKeep start endB consumer p = true
      ↔ ((∀ c, consumer = some c → p.consumer = c)
          ∧ idLe start p.id ∧ idLe p.id endB) := by
    intro p
    unfold xpendingKeep
    cases consumer with
    | none =>
      simp only [Bool.true_and, Bool.and_eq_true, Bool.not_eq_true',
        decide_eq_false_iff_not, streamCmp_neg_iff_idLt, streamCmp_pos_iff_idLt,
        not_idLt_iff]
      constructor
      · intro ⟨h1, h2⟩
        exact ⟨(fun c hc => nomatch hc), h1, h2⟩
      · intro ⟨_, h1, h2⟩
        exact ⟨h1, h2⟩
    | some c0 =>
      simp only [Bool.and_eq_true, Bool.not_eq_true', beq_iff_eq,
        decide_eq_false_iff_not, streamCmp_neg_iff_idLt, streamCmp_pos_iff_idLt,
        not_idLt_iff]
      constructor
      · intro ⟨⟨hc, h1⟩, h2⟩
        exact ⟨fun c hc2 => hc.trans (Option.some.inj hc2), h1, h2⟩
      · intro ⟨hc, h1, h2⟩
        exact ⟨⟨hc c0 rfl, h1⟩, h2⟩
  have heq : 0 ≤ count → xpRows (writeXpending now g start endB count consumer)
      = ((g.pending.filter (xpendingKeep start endB consumer)).map
          (xpRowOf now)).take count.toNat := by
    intro hpos
    unfold writeXpending
    by_cases hp : g.pending.length = 0
    · rw [List.length_eq_zero] at hp
      simp [hp, xpRows]
    · have hcond : ¬ (decide (g.pending.length = 0) || decide (count < 0)) = true := by
        simp only [Bool.or_eq_true, decide_eq_true_eq, not_or]
        exact ⟨hp, by omega⟩
      rw [if_neg hcond]
      rw [xpRows, xpendingLoop_eq]
      simp
  refine ⟨?_, ?_, heq, hkeep, ?_⟩
  · intro h
    unfold writeXpending
    rcases h with hneg | hnil
    · rw [if_pos (by simp [hneg])]
    · rw [if_pos (by simp [hnil])]
  · intro hle
    by_cases hneg : count < 0
    · unfold writeXpending
      rw [if_pos (by simp [hneg])]
      rfl
    · have h0 : count = 0 := by omega
      rw [heq (by omega), h0]
      simp
  · by_cases hneg : 0 ≤ count
    · rw [heq hneg]
      have hsub : List.Sublist
          (((g.pending.filter (xpendingKeep start endB consumer)).map
            (xpRowOf now)).take count.toNat)
          ((g.pending.filter (xpendingKeep start endB consumer)).map
            (xpRowOf now)) := List.take_sublist _ _
      have hpair : ((g.pending.filter (xpendingKeep start endB consumer)).map
          (xpRowOf now)).Pairwise (fun a b => idLe a.id b.id) := by
        apply List.pairwise_map.mpr
        exact (hsort.sublist (List.filter_sublist _)).imp (fun h => h)
      exact hpair.sublist hsub
    · unfold writeXpending
      rw [if_pos (by simp; omega)]
      exact List.Pairwise.nil

/-- Witness for C6: at the two-row group, a COUNT of 0 yields no rows. -/
theorem xpending_detail_spec_witness :
    (groupEx.pending.Pairwise (fun a b => idLe a.id b.id))
    ∧ xpRows (writeXpending 20 groupEx ⟨0, 0⟩ ⟨uint64Max, uint64Max⟩ 0 none) = [] := by
  refine ⟨by decide, ?_⟩
  exact (xpending_detail_spec 20 groupEx ⟨0, 0⟩ ⟨uint64Max, uint64Max⟩ 0 none
    (by decide)).2.1 (by omega)

/-- Membership in an association-list update: a pair comes from the old list
or is the updated binding. -/
theorem mem_assocSet {α : Type} {l : List (String × α)} {key : String} {v : α}
    {a : String} {b : α} (h : (a, b) ∈ assocSet l key v) :
    (a, b) ∈ l ∨ (a = key ∧ b = v) := by
  unfold assocSet at h
  by_cases hany : l.any (fun p => p.1 == key) = true
  · rw [if_pos hany] at h
    rw [List.mem_map] at h
    obtain ⟨p, hp, hpe⟩ := h
    by_cases hpk : (p.1 == key) = true
    · rw [if_pos hpk] at hpe
      right
      exact ⟨(congrArg Prod.fst hpe).symm, (congrArg Prod.snd hpe).symm⟩
    · rw [if_neg hpk] at hpe
      left
      exact hpe ▸ hp
  · rw [if_neg hany] at h
    rcases List.mem_append.mp h with hl | hr
    · exact Or.inl hl
    · right
      rw [List.mem_singleton] at hr
      exact ⟨congrArg Prod.fst hr, congrArg Prod.snd hr⟩

/-- With duplicate-free stream names, the requested ID of a (stream, id) pair
of the request is unique and `reqId` finds it. -/
theorem reqId_of_mem_zip : ∀ (streams ids : List String), streams.Nodup →
    ∀ k i, (k, i) ∈ streams.zip ids → reqId streams ids k = some i := by
  intro streams
  induction streams with
  | nil =>
    intro ids _ k i hmem
    simp at hmem
  | cons s ss ih =>
    intro ids hnd k i hmem
    cases ids with
    | nil => simp at hmem
    | cons t ts =>
      rw [List.zip_cons_cons] at hmem
      rw [List.nodup_cons] at hnd
      rcases List.mem_cons.mp hmem with hhead | htail
      · have hk : k = s := congrArg Prod.fst hhead
        have hi : i = t := congrArg Prod.snd hhead
        unfold reqId
        rw [List.zip_cons_cons, List.find?_cons_of_pos _ (by simp [hk])]
        simp [hi]
      · have hk : k ≠ s := by
          intro he
          rw [he] at htail
          exact hnd.1 (List.of_mem_zip htail).1
        unfold reqId
        rw [List.zip_cons_cons, List.find?_cons_of_neg _ (by simp [Ne.symm hk])]
        exact ih ts hnd.2 k i htail

/-- Invariant propagation for the xreadgroup loop: streams yielding nothing
under ">" never enter the result map. -/
theorem xreadgroupGo_omits (group consumer : String) (noack : Bool) (count : Int)
    (now : Nat) (streams ids : List String) (hnd : streams.Nodup) :
    ∀ (pairs : List (String × String)) (res : List (String × List StreamEntry))
      (db : RedisDB) (res1 : List (String × List StreamEntry)) (db1 : RedisDB),
      (∀ p ∈ pairs, p ∈ streams.zip ids) →
      (∀ k es, (k, es) ∈ res → reqId streams ids k = some ">" → es ≠ []) →
      xreadgroupGo group consumer noack count now pairs res db = (.ok res1, db1) →
      ∀ k es, (k, es) ∈ res1 → reqId streams ids k = some ">" → es ≠ [] := by
  intro pairs
  induction pairs with
  | nil =>
    intro res db res1 db1 _ hres h
    rw [xreadgroupGo] at h
    have h1 : Except.ok (ε := String) res = .ok res1 := congrArg Prod.fst h
    rw [Except.ok.inj h1] at hres
    exact hres
  | cons pr0 rest ih =>
    intro res db res1 db1 hsub hres h
    obtain ⟨key, id⟩ := pr0
    rw [xreadgroupGo] at h
    cases hsg : db.streamGroup key group with
    | error m =>
      rw [hsg] at h
      simp only [] at h
      have := congrArg Prod.fst h
      simp at this
    | ok gOpt =>
      cases gOpt with
      | none =>
        rw [hsg] at h
        simp only [] at h
        have := congrArg Prod.fst h
        simp at this
      | some g =>
        rw [hsg] at h
        simp only [] at h
        by_cases hguard : (id != ">" && (parseStreamID id).isNone) = true
        · rw [if_pos hguard] at h
          have := congrArg Prod.fst h
          simp at this
        · rw [if_neg hguard] at h
          have hzip : (key, id) ∈ streams.zip ids := hsub (key, id) (List.mem_cons_self _ _)
          have hreq : reqId streams ids key = some id :=
            reqId_of_mem_zip streams ids hnd key id hzip
          have hsubrest : ∀ p ∈ rest, p ∈ streams.zip ids :=
            fun p hp => hsub p (List.mem_cons_of_mem _ hp)
          by_cases hskip : (id == ">"
              && (g.readGroup (db.entriesOf key) now consumer id count noack).1.isEmpty) = true
          · rw [if_pos hskip] at h
            exact ih res _ res1 db1 hsubrest hres h
          · rw [if_neg hskip] at h
            refine ih _ _ res1 db1 hsubrest ?_ h
            intro k es hmem hru
            rcases mem_assocSet hmem with hold | ⟨hk, hes⟩
            · exact hres k es hold hru
            · subst hk
              have hid : id = ">" := by
                rw [hreq] at hru
                exact Option.some.inj hru
              subst hid
              rw [Bool.and_eq_true] at hskip
              push_neg at hskip
              have hne := hskip (by simp)
              rw [hes]
              intro hesnil
              rw [hesnil] at hne
              simp at hne

/-- C7: in a non-blocking XREADGROUP result, a requested stream read with the
">" token that yielded no new entries is omitted from the result rather than
reported as empty, and the reply is the null collection exactly when no
requested stream yielded any data. -/
theorem xreadgroup_omits_empty_streams (db : RedisDB) (group consumer : String)
    (noack : Bool) (streams ids : List String) (count : Int) (now : Nat)
    (res : List (String × List StreamEntry))
    (hnd : streams.Nodup)
    (h : (xreadgroup db group consumer noack streams ids count now).1 = .ok res) :
    (∀ k es, (k, es) ∈ res → reqId streams ids k = some ">" → es ≠ [])
    ∧ (writeXread streams res = .null ↔ res = []) := by
  constructor
  · have hfull : xreadgroup db group consumer noack streams ids count now
        = (.ok res, (xreadgroup db group consumer noack streams ids count now).2) := by
      rw [← h]
    exact xreadgroupGo_omits group consumer noack count now streams ids hnd
      (streams.zip ids) [] db res _ (fun p hp => hp)
      (fun k es hmem => nomatch hmem) hfull
  · unfold writeXread
    by_cases hres : res = []
    · simp [hres]
    · rw [if_neg hres]
      constructor
      · intro hx
        cases hx
      · intro hx
        exact absurd hx hres

/-- Witness for C7: a group whose cursor is already at the last entry yields
nothing under ">", the stream is omitted, and the reply is null. -/
theorem xreadgroup_omits_empty_streams_witness :
    ((["k"] : List String).Nodup
      ∧ (xreadgroup dbEx "g" "c" false ["k"] [">"] 0 5).1 = .ok [])
    ∧ (writeXread ["k"] ([] : List (String × List StreamEntry)) = .null
        ↔ ([] : List (String × List StreamEntry)) = []) := by
  refine ⟨⟨by decide, rfl⟩, ?_⟩
  exact (xreadgroup_omits_empty_streams dbEx "g" "c" false ["k"] [">"] 0 5 []
    (by decide) rfl).2

/-- Witness for C10: XACK on the empty database replies 0 and leaves it
untouched. -/
theorem xack_missing_group_zero_witness :
    ((["1-1"] : List String) ≠ []
      ∧ emptyDB.otherKeys "k" = none ∧ emptyDB.streamKeys "k" = none)
    ∧ cmdXack emptyDB "XACK" ["k", "g", "1-1"] = (.ok 0, emptyDB) := by
  refine ⟨⟨by decide, rfl, rfl⟩, ?_⟩
  exact xack_missing_group_zero emptyDB "XACK" "k" "g" ["1-1"] (by decide)
    (Or.inl ⟨rfl, rfl⟩)

/-- Witness for C4: appending 3-0 to the two-entry stream and trimming to
MAXLEN 2 leaves min 2 3 = 2 entries. -/
theorem xadd_maxlen_trim_spec_witness :
    (streamEx.add "3-0" ["h", "x"] 5 = .ok (⟨3, 0⟩, streamEx3))
    ∧ (streamEx3.trim 2).entries.length = min 2 (streamEx.entries.length + 1) := by
  refine ⟨rfl, ?_⟩
  exact (xadd_maxlen_trim_spec streamEx "3-0" ["h", "x"] 5 ⟨3, 0⟩ streamEx3 2 rfl).2.1

/-- Witness for C1: appending explicit 1-0 to a stream whose maximum ever
allocated ID is 2-0 fails with the ID-ordering error. -/
theorem xadd_id_monotonic_witness :
    (streamInv streamEx ∧ parseStreamID "1-0" = some ⟨1, 0⟩ ∧ "1-0" ≠ "*")
    ∧ streamEx.add "1-0" ["a", "b"] 5 = .error .invalidEntryID := by
  refine ⟨⟨by decide, by decide, by decide⟩, ?_⟩
  exact (xadd_id_monotonic streamEx "1-0" ["a", "b"] 5 ⟨1, 0⟩ (by decide) (by decide)
    (by decide)).1 (by decide)

end Miniredis
